import Mathlib

/-!
# cache_chapters.go: image fetcher, telemetry reporter, worker pool, orchestrator

A shallow embedding of `src/cache_chapters.go`.

* The outside world is a value `World`: what `os.Stat` answers for every path,
  and the chronological list of the effects performed so far (HTTP GETs, HTTP
  POSTs, console output, directory creation, ...).
* Everything the program cannot decide by itself (the answer of the delivery
  node, whether `os.Create` fails, how far `io.Copy` gets, the clock, ...) is an
  explicit argument, so a theorem quantified over these arguments speaks about
  every possible run.
* `fmt.Printf` calls are recorded with their format string and arguments.
-/

namespace CacheChapters

/-! ## Time -/

/-- Smallest value of a Go `time.Duration` (an int64 count of nanoseconds). -/
def minDuration : Int := -(2 ^ 63)

/-- Largest value of a Go `time.Duration`. -/
def maxDuration : Int := 2 ^ 63 - 1

/-- Go `time.Since(start)` when the clock reads `now` (both in nanoseconds):
`now.Sub(start)`, which saturates at the ends of the int64 range. -/
def since (now start : Int) : Int :=
  let d := now - start
  if d < minDuration then minDuration
  else if maxDuration < d then maxDuration
  else d

/-- Go `Duration.Milliseconds`: `int64(d) / 1e6`, integer division truncating
towards zero. -/
def milliseconds (d : Int) : Int := Int.tdiv d 1000000

/-! ## The world -/

/-- Answer of `os.Stat(path)`: a file-info value and a nil error, or a nil
file-info and an error; for the error only `os.IsNotExist` is ever asked. -/
inductive Stat where
  | info (size : Nat) (isDir : Bool)
  | notExist
  | failed (msg : String)
  deriving DecidableEq, Repr

/-- The five entries of the `values` map that is marshalled and posted to the
collector. -/
structure Report where
  url : String
  success : Bool
  bytes : Nat
  duration : Int
  cached : Bool
  deriving DecidableEq, Repr

/-- One argument of a `fmt.Printf` call. -/
inductive Arg where
  | str (s : String)
  | int (n : Int)
  | err (msg : String)
  | dur (nanos : Int)
  deriving DecidableEq, Repr

/-- The one field of a Go `http.Client` that matters here: `Timeout`, in seconds,
where zero means that requests never time out. -/
structure HttpClient where
  timeoutSeconds : Nat
  deriving DecidableEq, Repr

/-- Go `http.DefaultClient`, the zero-valued client used by the package-level
functions `http.Get` and `http.Post`. -/
def DefaultClient : HttpClient := { timeoutSeconds := 0 }

/-- Observable effects, in the order in which they happen. `call` is not an
effect of the program: it marks that a worker is entering
`downloadChapterImage` with the given chapter path, image and base URL. -/
inductive Event where
  | get (client : HttpClient) (url : String)
  | call (chapterPath image baseUrl : String)
  | readDir (path : String)
  | post (client : HttpClient) (endpoint : String) (contentType : String) (body : Report)
  | printf (format : String) (args : List Arg)
  | mkdirAll (path : String)
  | readFile (path : String)
  | atHome (client : HttpClient) (userAgent : String) (chapterId : String)
  | sleep (millis : Nat)
  | fatalf (format : String) (args : List Arg)
  deriving DecidableEq, Repr

/-- State of the outside world. -/
structure World where
  fs : String → Stat
  trace : List Event

/-- Append one effect to the trace. -/
def World.emit (w : World) (e : Event) : World :=
  { w with trace := w.trace ++ [e] }

/-- Replace what `os.Stat` answers for one path. -/
def World.setFile (w : World) (path : String) (s : Stat) : World :=
  { w with fs := fun p => if p = path then s else w.fs p }

/-- How a call ends: it returns to its caller, or the goroutine panics (which
terminates the whole process). -/
inductive Outcome where
  | returned
  | panicked
  deriving DecidableEq, Repr

/-! ## Telemetry reporter -/

/-- What the environment decides during one call of `reportToMangadexNetwork`:
the clock reading at `time.Since(start)` and the error (if any) that
`http.Post` returns. -/
structure ReportEnv where
  now : Int
  postErr : Option String

/-- URL of the collector, `urlMdAtHome` in the source. -/
def urlMdAtHome : String := "https://api.mangadex.network/report"

/-- The block `resp, err := http.Post(...); if err != nil ... else resp.Body.Close()`
that occurs three times in `reportToMangadexNetwork`. -/
def postReport (env : ReportEnv) (w : World) (values : Report) : World :=
  let w1 := w.emit (Event.post DefaultClient urlMdAtHome "application/json" values)
  match env.postErr with
  | some e => w1.emit (Event.printf "MD@HOME: %v" [Arg.err e])
  | none => w1

/-- Embedding of `reportToMangadexNetwork(url, filename, start, success, cached)`. -/
def reportToMangadexNetwork (env : ReportEnv) (w : World) (url filename : String)
    (start : Int) (success cached : Bool) : World × Outcome :=
  -- Create default
  let values : Report :=
    { url := url, success := success, bytes := 0,
      duration := milliseconds (since env.now start), cached := cached }
  -- If failed directly report
  if !success then
    (postReport env w values, Outcome.returned)
  else
    -- If file does not exists then we have already failed
    match w.fs filename with
    | Stat.notExist =>
      (postReport env w { values with success := false }, Outcome.returned)
    | _ =>
      -- Finally report the downloaded image
      match w.fs filename with
      | Stat.info size _ =>
        (postReport env w { values with bytes := size }, Outcome.returned)
      | _ =>
        -- `fi` is nil here, and `fi.Size()` is a nil dereference
        (w, Outcome.panicked)

/-! ## Image fetcher -/

/-- Modelled from the spec: the generated type `mangadex.Relationship` is not
among the sources; only the two fields that `main` reads are kept. -/
structure Relationship where
  Id : String
  Type_ : String
  deriving DecidableEq, Repr

/-- Modelled from the spec: the generated type `mangadex.ChapterAttributes` is
not among the sources; only the fields read by the program are kept (content
hash, translated-language code, full-quality page filenames). -/
structure ChapterAttributes where
  Hash : String
  TranslatedLanguage : String
  Data : List String
  deriving DecidableEq, Repr

/-- Modelled from the spec: the generated type `mangadex.Chapter` (field `Data`
of a chapter response) is not among the sources. -/
structure Chapter where
  Id : String
  Attributes : ChapterAttributes
  deriving DecidableEq, Repr

/-- Modelled from the spec: the generated type `mangadex.ChapterResponse` is not
among the sources. -/
structure ChapterResponse where
  Data : Chapter
  Relationships : List Relationship
  deriving DecidableEq, Repr

/-- The parts of an `*http.Response` the fetcher looks at. `header key` is
`resp.Header.Get(key)`, the empty string when the header is absent. The status
code is carried along although `downloadChapterImage` never reads it. -/
structure Response where
  statusCode : Int
  header : String → String
  bodyLen : Nat

/-- What the environment decides during one call of `downloadChapterImage`. -/
structure FetchEnv where
  /-- Clock reading of `time.Now()` at entry. -/
  start : Int
  /-- Result of `http.Get(url)`: an error, or a response (of any status). -/
  get : Except String Response
  /-- Error of `os.Create(filename)`, if any. -/
  createErr : Option String
  /-- Failure of `io.Copy`: bytes written before the error, and the error. -/
  copyErr : Option (Nat × String)
  /-- Environment of the call of `reportToMangadexNetwork`. -/
  report : ReportEnv

/-- Embedding of `downloadChapterImage(chapterPath, chapter, image, baseUrl)`. -/
def downloadChapterImage (env : FetchEnv) (w : World) (chapterPath : String)
    (chapter : ChapterResponse) (image : String) (baseUrl : String) : World × Outcome :=
  -- Create the url we will download
  let start := env.start
  let filename := chapterPath ++ image
  let url := baseUrl ++ "/data/" ++ chapter.Data.Attributes.Hash ++ "/" ++ image
  -- Skip if already downloaded
  match w.fs filename with
  | Stat.info _ _ => (w, Outcome.returned)
  | _ =>
    -- Try to download
    let w1 := w.emit (Event.get DefaultClient url)
    match env.get with
    | Except.error e =>
      let w2 := w1.emit (Event.printf "%v\n" [Arg.err e])
      reportToMangadexNetwork env.report w2 url filename start false false
    | Except.ok imgResp =>
      let cacheHit := imgResp.header "X-Cache"
      -- Open a file for writing and write the response!
      match env.createErr with
      | some e =>
        let w2 := w1.emit (Event.printf "%v\n" [Arg.err e])
        reportToMangadexNetwork env.report w2 url filename start false (cacheHit == "HIT")
      | none =>
        let w2 := w1.setFile filename (Stat.info 0 false)
        match env.copyErr with
        | some (written, e) =>
          let w3 := w2.setFile filename (Stat.info written false)
          let w4 := w3.emit (Event.printf "%v\n" [Arg.err e])
          reportToMangadexNetwork env.report w4 url filename start false (cacheHit == "HIT")
        | none =>
          let w3 := w2.setFile filename (Stat.info imgResp.bodyLen false)
          -- Report to mangadex @ home network!
          reportToMangadexNetwork env.report w3 url filename start true (cacheHit == "HIT")

/-- The reports posted to the collector, in order. -/
def reportsOf (t : List Event) : List Report :=
  t.filterMap fun e =>
    match e with
    | Event.post _ _ _ body => some body
    | _ => none

/-- The URLs fetched with HTTP GET, in order. -/
def getsOf (t : List Event) : List String :=
  t.filterMap fun e =>
    match e with
    | Event.get _ url => some url
    | _ => none

/-- The clients with which the HTTP GETs were made, in order. -/
def getClientsOf (t : List Event) : List HttpClient :=
  t.filterMap fun e =>
    match e with
    | Event.get client _ => some client
    | _ => none

/-! ## The fetcher between its blocking operations

A call of `downloadChapterImage` blocks in `http.Get`, in `io.Copy` and, inside
`reportToMangadexNetwork`, in `http.Post`; none of the three has a deadline.
Where several calls run at the same time the function is therefore cut at these
operations: each piece below runs from the return of one blocking operation to
the start of the next, and other goroutines may run in between. Run one after
the other under one environment, the pieces are `downloadChapterImage` itself
(theorem `downloadChapterImage_eq_pieces`). -/

/-- The blocking operation in which a call of `downloadChapterImage` waits,
together with the local variables that are live across it. -/
inductive Blocked where
  /-- In `http.Get(url)`; `start` was read at entry. -/
  | inGet (start : Int)
  /-- In `io.Copy(file, imgResp.Body)`; `cacheHit` and the length of the body
  come from the response. -/
  | inCopy (start : Int) (cacheHit : String) (bodyLen : Nat)
  /-- In `http.Post(...)` inside `reportToMangadexNetwork`. -/
  | inPost
  deriving DecidableEq, Repr

/-- Where a call stands after one of its pieces has run: blocked again, or
ended. -/
inductive CallState where
  | blocked (b : Blocked)
  | ended (out : Outcome)
  deriving DecidableEq, Repr

/-- The piece of `reportToMangadexNetwork` from its entry to the start of
`http.Post`; `now` is the clock reading at `time.Since(start)`. -/
def reportUntilPost (now : Int) (w : World) (url filename : String)
    (start : Int) (success cached : Bool) : World × CallState :=
  -- Create default
  let values : Report :=
    { url := url, success := success, bytes := 0,
      duration := milliseconds (since now start), cached := cached }
  -- If failed directly report
  if !success then
    (w.emit (Event.post DefaultClient urlMdAtHome "application/json" values),
      CallState.blocked Blocked.inPost)
  else
    -- If file does not exists then we have already failed
    match w.fs filename with
    | Stat.notExist =>
      (w.emit (Event.post DefaultClient urlMdAtHome "application/json"
          { values with success := false }),
        CallState.blocked Blocked.inPost)
    | _ =>
      -- Finally report the downloaded image
      match w.fs filename with
      | Stat.info size _ =>
        (w.emit (Event.post DefaultClient urlMdAtHome "application/json"
            { values with bytes := size }),
          CallState.blocked Blocked.inPost)
      | _ =>
        -- `fi` is nil here, and `fi.Size()` is a nil dereference
        (w, CallState.ended Outcome.panicked)

/-- The piece of `reportToMangadexNetwork` from the return of `http.Post` to
its end. -/
def reportAfterPost (postErr : Option String) (w : World) : World :=
  match postErr with
  | some e => w.emit (Event.printf "MD@HOME: %v" [Arg.err e])
  | none => w

/-- The piece of `downloadChapterImage` from its entry to the start of
`http.Get`, lines 70 to 81. -/
def downloadUntilGet (env : FetchEnv) (w : World) (chapterPath : String)
    (chapter : ChapterResponse) (image : String) (baseUrl : String) : World × CallState :=
  -- Create the url we will download
  let start := env.start
  let filename := chapterPath ++ image
  let url := baseUrl ++ "/data/" ++ chapter.Data.Attributes.Hash ++ "/" ++ image
  -- Skip if already downloaded
  match w.fs filename with
  | Stat.info _ _ => (w, CallState.ended Outcome.returned)
  | _ =>
    -- Try to download
    (w.emit (Event.get DefaultClient url), CallState.blocked (Blocked.inGet start))

/-- The piece of `downloadChapterImage` from the return of `http.Get` to the
start of the next blocking operation, lines 81 to 96. -/
def downloadAfterGet (env : FetchEnv) (w : World) (chapterPath : String)
    (chapter : ChapterResponse) (image : String) (baseUrl : String) (start : Int) :
    World × CallState :=
  let filename := chapterPath ++ image
  let url := baseUrl ++ "/data/" ++ chapter.Data.Attributes.Hash ++ "/" ++ image
  match env.get with
  | Except.error e =>
    let w2 := w.emit (Event.printf "%v\n" [Arg.err e])
    reportUntilPost env.report.now w2 url filename start false false
  | Except.ok imgResp =>
    let cacheHit := imgResp.header "X-Cache"
    -- Open a file for writing and write the response!
    match env.createErr with
    | some e =>
      let w2 := w.emit (Event.printf "%v\n" [Arg.err e])
      reportUntilPost env.report.now w2 url filename start false (cacheHit == "HIT")
    | none =>
      (w.setFile filename (Stat.info 0 false),
        CallState.blocked (Blocked.inCopy start cacheHit imgResp.bodyLen))

/-- The piece of `downloadChapterImage` from the return of `io.Copy` to the
start of `http.Post`, lines 96 to 106 and 18 to 59. -/
def downloadAfterCopy (env : FetchEnv) (w : World) (chapterPath : String)
    (chapter : ChapterResponse) (image : String) (baseUrl : String) (start : Int)
    (cacheHit : String) (bodyLen : Nat) : World × CallState :=
  let filename := chapterPath ++ image
  let url := baseUrl ++ "/data/" ++ chapter.Data.Attributes.Hash ++ "/" ++ image
  match env.copyErr with
  | some (written, e) =>
    let w3 := w.setFile filename (Stat.info written false)
    let w4 := w3.emit (Event.printf "%v\n" [Arg.err e])
    reportUntilPost env.report.now w4 url filename start false (cacheHit == "HIT")
  | none =>
    let w3 := w.setFile filename (Stat.info bodyLen false)
    -- Report to mangadex @ home network!
    reportUntilPost env.report.now w3 url filename start true (cacheHit == "HIT")

/-- The piece of a call that runs when the operation it is blocked in returns;
`env` is what the environment decides for that operation and up to the next. -/
def resumeCall (env : FetchEnv) (w : World) (chapterPath : String)
    (chapter : ChapterResponse) (image : String) (baseUrl : String) :
    Blocked → World × CallState
  | Blocked.inGet start => downloadAfterGet env w chapterPath chapter image baseUrl start
  | Blocked.inCopy start cacheHit bodyLen =>
    downloadAfterCopy env w chapterPath chapter image baseUrl start cacheHit bodyLen
  | Blocked.inPost => (reportAfterPost env.report.postErr w, CallState.ended Outcome.returned)

/-- Run a call that stands at `st` to its end without letting anything else
happen in between: at most three blocking operations are left. -/
def finishCall (env : FetchEnv) (chapterPath : String) (chapter : ChapterResponse)
    (image : String) (baseUrl : String) : Nat → World × CallState → World × CallState
  | 0, r => r
  | n + 1, (w, CallState.blocked b) =>
    finishCall env chapterPath chapter image baseUrl n
      (resumeCall env w chapterPath chapter image baseUrl b)
  | _ + 1, (w, CallState.ended out) => (w, CallState.ended out)

/-! ## Download dispatcher (worker pool)

The goroutines of the pool are interleaved by an explicit schedule: a list of
actions, each naming the goroutine that takes its next step. A step that is not
enabled (a send on a full channel, a receive on an empty open channel,
`wg.Wait()` with a positive counter, anything after a panic) leaves the state
unchanged. A call of `downloadChapterImage` is not one step: the worker stops
at each blocking operation of the call, other goroutines run meanwhile, and the
move that takes the worker on is the return of that operation. An operation
that never returns is a worker that the schedule never names again. -/

/-- Constant `workerPoolSize` of `main`. -/
def workerPoolSize : Nat := 20

/-- Where one worker goroutine stands. -/
inductive Worker where
  /-- At `for data := range dataCh`, about to receive. -/
  | waiting
  /-- Holding a received `data`, about to call `downloadChapterImage`. -/
  | holding (data : String)
  /-- Inside `downloadChapterImage(chapterPath, chapter, data, ...)`, waiting in
  the blocking operation `b`. -/
  | calling (data : String) (b : Blocked)
  /-- Out of the loop; the deferred `wg.Done()` has run. -/
  | exited
  /-- Panicking: a nil dereference inside the call, or a negative counter in
  `wg.Done()`. -/
  | panicked
  deriving DecidableEq, Repr

/-- Where the dispatching goroutine stands. -/
inductive MainPc where
  /-- In `for w := 0; w < workerPoolSize; w++`, about to test `w`. -/
  | spawning (w : Nat)
  /-- In `for _, image := range ...Data`, with `rest` still to send. -/
  | feeding (rest : List String)
  /-- At `wg.Wait()`, the channel closed. -/
  | waitingWg
  /-- Past `wg.Wait()`. -/
  | returned
  deriving DecidableEq, Repr

/-- State of one dispatch: the dispatching goroutine, the wait group counter,
the buffered channel `dataCh` (capacity `workerPoolSize`), the workers, the
world, and whether some goroutine has panicked. -/
structure Pool where
  pc : MainPc
  wg : Int
  dataCh : List String
  closed : Bool
  workers : List Worker
  world : World
  crashed : Bool

/-- One scheduling decision: the dispatching goroutine moves, or worker `i`
moves. For a worker inside a call the move is the return of the operation it is
blocked in; `env` is what the environment decides for the piece of the call
that the move runs. -/
inductive Action where
  | main
  | worker (i : Nat) (env : FetchEnv)

/-- State at `var wg sync.WaitGroup`. -/
def initPool (w : World) : Pool :=
  { pc := MainPc.spawning 0, wg := 0, dataCh := [], closed := false,
    workers := [], world := w, crashed := false }

/-- Next step of the dispatching goroutine, lines 181 to 200. -/
def mainStep (chapter : ChapterResponse) (p : Pool) : Option Pool :=
  match p.pc with
  | MainPc.spawning w =>
    if w < workerPoolSize then
      -- wg.Add(1); go func() ...
      some { p with wg := p.wg + 1, workers := p.workers ++ [Worker.waiting],
                    pc := MainPc.spawning (w + 1) }
    else
      some { p with pc := MainPc.feeding chapter.Data.Attributes.Data }
  | MainPc.feeding (image :: rest) =>
    -- dataCh <- image
    if p.dataCh.length < workerPoolSize then
      some { p with dataCh := p.dataCh ++ [image], pc := MainPc.feeding rest }
    else none
  | MainPc.feeding [] =>
    -- close(dataCh)
    some { p with closed := true, pc := MainPc.waitingWg }
  | MainPc.waitingWg =>
    -- wg.Wait()
    if p.wg = 0 then some { p with pc := MainPc.returned } else none
  | MainPc.returned => none

/-- Worker `i` after a piece of its call has run: blocked in the next operation,
or back at the head of its loop after `fmt.Printf("\t- downloaded %s\n", data)`,
or panicking. -/
def settle (p : Pool) (i : Nat) (data : String) : World × CallState → Pool
  | (w, CallState.blocked b) =>
    { p with world := w, workers := p.workers.set i (Worker.calling data b) }
  | (w, CallState.ended Outcome.returned) =>
    { p with world := w.emit (Event.printf "\t- downloaded %s\n" [Arg.str data]),
             workers := p.workers.set i Worker.waiting }
  | (w, CallState.ended Outcome.panicked) =>
    { p with world := w, crashed := true, workers := p.workers.set i Worker.panicked }

/-- Next step of worker `i`, lines 186 to 192. -/
def workerStep (chapterPath : String) (chapter : ChapterResponse) (baseUrl : String)
    (i : Nat) (env : FetchEnv) (p : Pool) : Option Pool :=
  match p.workers[i]? with
  | some Worker.waiting =>
    match p.dataCh with
    | data :: rest =>
      some { p with dataCh := rest, workers := p.workers.set i (Worker.holding data) }
    | [] =>
      if p.closed then
        -- the range loop ends; deferred wg.Done()
        if p.wg - 1 < 0 then
          some { p with crashed := true, workers := p.workers.set i Worker.panicked }
        else some { p with wg := p.wg - 1, workers := p.workers.set i Worker.exited }
      else none
  | some (Worker.holding data) =>
    -- downloadChapterImage(chapterPath, chapter, data, mdexAtHome.BaseUrl)
    let w1 := p.world.emit (Event.call chapterPath data baseUrl)
    some (settle p i data (downloadUntilGet env w1 chapterPath chapter data baseUrl))
  | some (Worker.calling data b) =>
    some (settle p i data (resumeCall env p.world chapterPath chapter data baseUrl b))
  | _ => none

/-- One step of the pool under a scheduling decision, if it is enabled. -/
def step (chapterPath : String) (chapter : ChapterResponse) (baseUrl : String)
    (a : Action) (p : Pool) : Option Pool :=
  if p.crashed then none
  else
    match a with
    | Action.main => mainStep chapter p
    | Action.worker i env => workerStep chapterPath chapter baseUrl i env p

/-- Run the pool under a schedule; decisions that are not enabled are skipped. -/
def runPool (chapterPath : String) (chapter : ChapterResponse) (baseUrl : String) :
    List Action → Pool → Pool
  | [], p => p
  | a :: sched, p =>
    runPool chapterPath chapter baseUrl sched ((step chapterPath chapter baseUrl a p).getD p)

/-- The images passed to `downloadChapterImage`, in order of the calls. -/
def callsOf (t : List Event) : List String :=
  t.filterMap fun e =>
    match e with
    | Event.call _ image _ => some image
    | _ => none

/-! ## Chapter orchestrator -/

/-- The loop at lines 153 to 158: `mangaId` starts as "unknown" and is
overwritten by every relationship of type "manga". -/
def findMangaId (relationships : List Relationship) : String :=
  relationships.foldl
    (fun mangaId relation => if relation.Type_ == "manga" then relation.Id else mangaId)
    "unknown"

/-- The two methods of `os.FileInfo` used on an entry of the listing. -/
structure DirEntry where
  Name : String
  IsDir : Bool
  deriving DecidableEq, Repr

/-- Modelled from the spec: the generated response type of
`AtHomeApi.GetAtHomeServerChapterId` is not among the sources; only the field
`BaseUrl` is read. -/
structure AtHomeResponse where
  BaseUrl : String
  deriving DecidableEq, Repr

/-- What the environment decides during one iteration of the chapter loop. -/
structure ChapterEnv where
  /-- Value of `chapter` after `ioutil.ReadFile` and `json.Unmarshal` (whose
  errors are ignored). -/
  chapter : ChapterResponse
  /-- Error of `os.MkdirAll(chapterPath, ...)`, if any. -/
  mkdirErr : Option String
  /-- Result of `client.AtHomeApi.GetAtHomeServerChapterId`: an error, or the
  decoded answer together with `resp.StatusCode`. -/
  atHome : Except String (AtHomeResponse × Int)
  /-- Interleaving of the goroutines of the pool. -/
  sched : List Action
  /-- Clock readings at `start := time.Now()` and at `time.Since(start)`. -/
  start : Int
  finish : Int

/-- How a run of the program ends: the loop runs to its end, `log.Fatalf`
terminates the process, a goroutine panics, or the given schedule ends before
`wg.Wait()` has returned (the run is only known up to that point). -/
inductive Status where
  | completed
  | fatal
  | crashed
  | unfinished
  deriving DecidableEq, Repr

/-- Effect of a successful `os.MkdirAll(path, ...)`: afterwards `path` is a
directory. Parent directories are not tracked. -/
def World.mkdir (w : World) (path : String) : World :=
  match w.fs path with
  | Stat.info _ true => w
  | _ => w.setFile path (Stat.info 0 true)

/-- The client built at lines 125 to 130: `Timeout: 60 * time.Second`. -/
def configHTTPClient : HttpClient := { timeoutSeconds := 60 }

/-- Value of `config.UserAgent`. -/
def configUserAgent : String := "similar-manga v2.0"

/-- The loop `for _, file := range itemsChapters`, lines 135 to 205. -/
def chapterLoop (dirChapters dirImages : String) :
    List (DirEntry × ChapterEnv) → World → World × Status
  | [], w => (w, Status.completed)
  | (file, env) :: itemsChapters, w =>
    -- Skip if a directory
    if file.IsDir then chapterLoop dirChapters dirImages itemsChapters w
    else
      -- Load the json from file into our chapter struct
      let w1 := w.emit (Event.readFile (dirChapters ++ file.Name))
      let chapter := env.chapter
      -- Skip if not in english
      if chapter.Data.Attributes.TranslatedLanguage != "en" then
        chapterLoop dirChapters dirImages itemsChapters w1
      else
        -- Find the manga id
        let mangaId := findMangaId chapter.Relationships
        -- Create our save folder path
        let w2 := w1.emit (Event.printf "chapter %s of manga %s\n"
          [Arg.str chapter.Data.Id, Arg.str mangaId])
        let chapterPath := dirImages ++ chapter.Data.Id ++ "/"
        let w3 := w2.emit (Event.mkdirAll chapterPath)
        match env.mkdirErr with
        | some e => (w3.emit (Event.fatalf "%v" [Arg.err e]), Status.fatal)
        | none =>
          -- Get the mangadex@home url we will download the images from
          let w4 := (w3.mkdir chapterPath).emit
            (Event.atHome configHTTPClient configUserAgent chapter.Data.Id)
          match env.atHome with
          | Except.error e => (w4.emit (Event.fatalf "%v" [Arg.err e]), Status.fatal)
          | Except.ok (mdexAtHome, statusCode) =>
            if statusCode != 200 then
              chapterLoop dirChapters dirImages itemsChapters
                (w4.emit (Event.printf "HTTP ERROR CODE %d\n" [Arg.int statusCode]))
            else
              -- Create our worker pool; feed data into our channel till it is done
              let p := runPool chapterPath chapter mdexAtHome.BaseUrl env.sched (initPool w4)
              if p.crashed then (p.world, Status.crashed)
              else
                match p.pc with
                | MainPc.returned =>
                  let w5 := p.world.emit (Event.printf "\n" [])
                  let w6 := w5.emit (Event.printf "chapter took %s\n"
                    [Arg.dur (since env.finish env.start)])
                  chapterLoop dirChapters dirImages itemsChapters (w6.emit (Event.sleep 200))
                | _ => (p.world, Status.unfinished)

/-- What the environment decides during a run of `main`. -/
structure MainEnv where
  /-- Errors of the two `os.MkdirAll` calls at startup, if any. -/
  mkdirChaptersErr : Option String
  mkdirImagesErr : Option String
  /-- Listing returned by `ioutil.ReadDir(dirChapters)` (its error is ignored),
  each entry with what the environment decides while it is processed. -/
  itemsChapters : List (DirEntry × ChapterEnv)

/-- Embedding of `main`. -/
def main (env : MainEnv) (w : World) : World × Status :=
  -- Directory configuration
  let dirChapters := "data/chapter/"
  let dirImages := "data/images/"
  let w1 := w.emit (Event.mkdirAll dirChapters)
  match env.mkdirChaptersErr with
  | some e => (w1.emit (Event.fatalf "%v" [Arg.err e]), Status.fatal)
  | none =>
    let w2 := (w1.mkdir dirChapters).emit (Event.mkdirAll dirImages)
    match env.mkdirImagesErr with
    | some e => (w2.emit (Event.fatalf "%v" [Arg.err e]), Status.fatal)
    | none =>
      -- Loop through all manga and download each chapter images
      let w3 := (w2.mkdir dirImages).emit (Event.readDir dirChapters)
      chapterLoop dirChapters dirImages env.itemsChapters w3

/-! ## Auxiliary notions used to state invariants of the pool -/

/-- The images received by workers that have not yet made their call. -/
def heldOf (workers : List Worker) : List String :=
  workers.filterMap fun x =>
    match x with
    | Worker.holding data => some data
    | _ => none

/-- The images the dispatching goroutine has still to send. -/
def pendingOf (pages : List String) : MainPc → List String
  | MainPc.spawning _ => pages
  | MainPc.feeding rest => rest
  | MainPc.waitingWg => []
  | MainPc.returned => []

/-- Invariant of a dispatch of the page list `pages` started in world `w0`. -/
structure PoolInv (pages : List String) (w0 : World) (p : Pool) : Prop where
  /-- Every page is in exactly one place: already passed to
  `downloadChapterImage`, held by a worker, in the channel, or not yet sent. -/
  calls : ∃ done, callsOf p.world.trace = callsOf w0.trace ++ done ∧
    (done ++ heldOf p.workers ++ p.dataCh ++ pendingOf pages p.pc).Perm pages
  /-- The channel is closed exactly when the feeding loop is over. -/
  closed_pc : p.closed = true ↔ (p.pc = MainPc.waitingWg ∨ p.pc = MainPc.returned)
  /-- A worker leaves its loop only when the channel is closed and drained. -/
  exited_drained : Worker.exited ∈ p.workers → p.closed = true ∧ p.dataCh = []
  /-- The wait group counts the workers that have not run `wg.Done()`. -/
  wg_count : p.wg = ((p.workers.filter (fun x => x ≠ Worker.exited)).length : Int)
  /-- Workers are spawned one by one, `workerPoolSize` in all. -/
  spawned : match p.pc with
    | MainPc.spawning w => p.workers.length = w ∧ w ≤ workerPoolSize
    | _ => p.workers.length = workerPoolSize
  /-- The wait is over only when the counter is zero. -/
  returned_wg : p.pc = MainPc.returned → p.wg = 0
  /-- No goroutine has panicked. -/
  not_crashed : p.crashed = false
  no_panicked : Worker.panicked ∉ p.workers
  /-- The channel never holds more than its capacity. -/
  capacity : p.dataCh.length ≤ workerPoolSize

/-- Steps a call blocked in `b` has still to take. -/
def blockedCost : Blocked → Nat
  | Blocked.inGet _ => 3
  | Blocked.inCopy _ _ _ => 2
  | Blocked.inPost => 1

/-- Steps a worker has still to take for what it has in hand, its exit
included. -/
def workerCost : Worker → Nat
  | Worker.waiting => 1
  | Worker.holding _ => 5
  | Worker.calling _ b => blockedCost b + 1
  | Worker.exited => 0
  | Worker.panicked => 0

/-- Steps the dispatching goroutine has still to take, sends apart. -/
def mainStepsLeft : MainPc → Nat
  | MainPc.spawning w => 2 * (workerPoolSize - w) + 3
  | MainPc.feeding _ => 2
  | MainPc.waitingWg => 1
  | MainPc.returned => 0

/-- A bound on the number of steps a dispatch of `pages` can still take: a page
not yet sent costs six steps (send, receive, entry of the call, return of
`http.Get`, of `io.Copy` and of `http.Post`), a page in the channel five. -/
def poolMeasure (pages : List String) (p : Pool) : Nat :=
  mainStepsLeft p.pc + 6 * (pendingOf pages p.pc).length + 5 * p.dataCh.length
    + (p.workers.map workerCost).sum

/-- Number of decisions of a schedule that were enabled when their turn came. -/
def stepsTaken (chapterPath : String) (chapter : ChapterResponse) (baseUrl : String) :
    List Action → Pool → Nat
  | [], _ => 0
  | a :: sched, p =>
    match step chapterPath chapter baseUrl a p with
    | some p' => 1 + stepsTaken chapterPath chapter baseUrl sched p'
    | none => stepsTaken chapterPath chapter baseUrl sched p

/-- What holds throughout a dispatch started in world `w0` when every page is
already on disk: the disk, the GETs and the reports are those of `w0`, and no
worker is inside a blocking operation. -/
structure Quiet (w0 : World) (p : Pool) : Prop where
  fs_same : p.world.fs = w0.fs
  gets_same : getsOf p.world.trace = getsOf w0.trace
  reports_same : reportsOf p.world.trace = reportsOf w0.trace
  none_blocked : ∀ x ∈ p.workers, ∀ data b, x ≠ Worker.calling data b

/-! ## Concrete inputs used in examples -/

/-- A disk without any file, and nothing done yet. -/
def emptyDisk : World := { fs := fun _ => Stat.notExist, trace := [] }

/-- A disk holding the two pages of `sampleChapter` and nothing else. -/
def fullDisk : World :=
  { fs := fun path =>
      if path = "data/images/c1/1.png" then Stat.info 727040 false
      else if path = "data/images/c1/2.png" then Stat.info 25 false
      else Stat.notExist,
    trace := [] }

/-- An English chapter with two pages, belonging to manga `m1`. -/
def sampleChapter : ChapterResponse :=
  { Data := { Id := "c1",
              Attributes := { Hash := "h1", TranslatedLanguage := "en",
                              Data := ["1.png", "2.png"] } },
    Relationships := [{ Id := "m1", Type_ := "manga" }] }

/-- The collector is reached after 235 ms. -/
def sampleReportEnv : ReportEnv := { now := 235000000, postErr := none }

/-- The delivery node answers with the given status and `X-Cache` value and a
body of 25 bytes; creating and writing the file succeed. -/
def sampleFetchEnv (statusCode : Int) (xCache : String) : FetchEnv :=
  { start := 0,
    get := Except.ok { statusCode := statusCode,
                       header := fun key => if key = "X-Cache" then xCache else "",
                       bodyLen := 25 },
    createErr := none, copyErr := none, report := sampleReportEnv }

/-- A relationship list with two entries of type "manga". -/
def twoMangas : List Relationship :=
  [{ Id := "a", Type_ := "manga" }, { Id := "b", Type_ := "manga" }]

/-- A schedule that lets the dispatching goroutine run until it blocks, then
lets every worker take six steps (receive, enter the call, return of the three
blocking operations, leave the loop), then lets the dispatching goroutine
finish. -/
def sampleSched (env : FetchEnv) : List Action :=
  List.replicate 24 Action.main
    ++ ((List.range 20).map fun i => Action.worker i env)
    ++ ((List.range 20).map fun i => Action.worker i env)
    ++ ((List.range 20).map fun i => Action.worker i env)
    ++ ((List.range 20).map fun i => Action.worker i env)
    ++ ((List.range 20).map fun i => Action.worker i env)
    ++ ((List.range 20).map fun i => Action.worker i env)
    ++ [Action.main]

/-- A schedule in which no blocking operation ever returns: the dispatching
goroutine runs until it blocks, every worker takes two steps (receive, enter
the call), and from then on only the dispatching goroutine is scheduled. -/
def stalledSched (env : FetchEnv) : List Action :=
  List.replicate 24 Action.main
    ++ ((List.range 20).map fun i => Action.worker i env)
    ++ ((List.range 20).map fun i => Action.worker i env)
    ++ List.replicate 5 Action.main

/-- A chapter whose page list names the same page twice. -/
def repeatedPageChapter : ChapterResponse :=
  { Data := { Id := "c3",
              Attributes := { Hash := "h3", TranslatedLanguage := "en",
                              Data := ["1.png", "1.png"] } },
    Relationships := [] }

/-- The metadata API answers with status 404 for `sampleChapter`. -/
def notFoundEnv : ChapterEnv :=
  { chapter := sampleChapter, mkdirErr := none,
    atHome := Except.ok ({ BaseUrl := "" }, 404),
    sched := [], start := 0, finish := 0 }

/-- A disk on which every `os.Stat` fails with an error other than "does not
exist", as it does below a directory without search permission. -/
def lockedDisk : World := { fs := fun _ => Stat.failed "permission denied", trace := [] }

/-- The GET fails at request level. -/
def getFailEnv : FetchEnv :=
  { start := 0, get := Except.error "connection refused",
    createErr := none, copyErr := none, report := sampleReportEnv }

/-- The delivery node answers, the file is created, and the copy of the body
breaks off after 10 of 25 bytes. -/
def copyFailEnv : FetchEnv :=
  { start := 0,
    get := Except.ok { statusCode := 200, header := fun _ => "", bodyLen := 25 },
    createErr := none, copyErr := some (10, "unexpected EOF"), report := sampleReportEnv }

/-- A chapter translated into French. -/
def frenchChapter : ChapterResponse :=
  { Data := { Id := "c2",
              Attributes := { Hash := "h2", TranslatedLanguage := "fr",
                              Data := ["1.png"] } },
    Relationships := [{ Id := "m1", Type_ := "manga" }] }

/-- The environment of an iteration over `frenchChapter`; nothing but the
record is ever consulted. -/
def frenchEnv : ChapterEnv :=
  { chapter := frenchChapter, mkdirErr := none,
    atHome := Except.ok ({ BaseUrl := "https://node/token" }, 200),
    sched := [], start := 0, finish := 0 }

/-- The environment of an iteration over `sampleChapter` in which the metadata
API answers 200 and the pool runs under `sampleSched`. -/
def englishEnv : ChapterEnv :=
  { chapter := sampleChapter, mkdirErr := none,
    atHome := Except.ok ({ BaseUrl := "https://node/token" }, 200),
    sched := sampleSched (sampleFetchEnv 200 "HIT"), start := 0, finish := 1000000000 }

/-! ## Words of the specification used for comparison -/

/-- Specification wording, section 4.1 step 5 and section 8: a value of the
`X-Cache` header is a cache hit when it begins with `HIT`. -/
def specCacheHit (xCache : String) : Bool := "HIT".toList.isPrefixOf xCache.toList

/-- Specification wording, section 4.4 step 2: the id of the first relationship
tagged "manga", the sentinel "unknown" if there is none. -/
def specMangaId (relationships : List Relationship) : String :=
  match relationships.find? (fun relation => relation.Type_ == "manga") with
  | some relation => relation.Id
  | none => "unknown"

/-! ## Basic facts about worlds and traces -/

@[simp] theorem World.trace_emit (w : World) (e : Event) :
    (w.emit e).trace = w.trace ++ [e] := rfl

@[simp] theorem World.fs_emit (w : World) (e : Event) : (w.emit e).fs = w.fs := rfl

@[simp] theorem World.trace_setFile (w : World) (path : String) (s : Stat) :
    (w.setFile path s).trace = w.trace := rfl

@[simp] theorem World.fs_setFile_same (w : World) (path : String) (s : Stat) :
    (w.setFile path s).fs path = s := by
  simp [World.setFile]

@[simp] theorem World.trace_mkdir (w : World) (path : String) :
    (w.mkdir path).trace = w.trace := by
  unfold World.mkdir
  split <;> rfl

theorem World.fs_mkdir_congr (w v : World) (path : String) (h : w.fs = v.fs) :
    (w.mkdir path).fs = (v.mkdir path).fs := by
  unfold World.mkdir
  rw [h]
  split <;> simp [World.setFile, h]

@[simp] theorem World.fs_mkdir_emit (w : World) (e : Event) (path : String) :
    ((w.emit e).mkdir path).fs = (w.mkdir path).fs :=
  World.fs_mkdir_congr _ _ path rfl

@[simp] theorem reportsOf_nil : reportsOf [] = [] := rfl

@[simp] theorem reportsOf_cons (e : Event) (t : List Event) :
    reportsOf (e :: t) = (match e with
      | Event.post _ _ _ body => [body]
      | _ => []) ++ reportsOf t := by
  cases e <;> rfl

@[simp] theorem reportsOf_append (t u : List Event) :
    reportsOf (t ++ u) = reportsOf t ++ reportsOf u := by
  simp [reportsOf]

@[simp] theorem getsOf_nil : getsOf [] = [] := rfl

@[simp] theorem getsOf_cons (e : Event) (t : List Event) :
    getsOf (e :: t) = (match e with
      | Event.get _ url => [url]
      | _ => []) ++ getsOf t := by
  cases e <;> rfl

@[simp] theorem getsOf_append (t u : List Event) :
    getsOf (t ++ u) = getsOf t ++ getsOf u := by
  simp [getsOf]

@[simp] theorem callsOf_nil : callsOf [] = [] := rfl

@[simp] theorem callsOf_cons (e : Event) (t : List Event) :
    callsOf (e :: t) = (match e with
      | Event.call _ image _ => [image]
      | _ => []) ++ callsOf t := by
  cases e <;> rfl

@[simp] theorem callsOf_append (t u : List Event) :
    callsOf (t ++ u) = callsOf t ++ callsOf u := by
  simp [callsOf]

/-! ## The reporter -/

@[simp] theorem reportsOf_postReport (env : ReportEnv) (w : World) (values : Report) :
    reportsOf (postReport env w values).trace = reportsOf w.trace ++ [values] := by
  unfold postReport
  cases env.postErr <;> simp

@[simp] theorem getsOf_postReport (env : ReportEnv) (w : World) (values : Report) :
    getsOf (postReport env w values).trace = getsOf w.trace := by
  unfold postReport
  cases env.postErr <;> simp

@[simp] theorem callsOf_postReport (env : ReportEnv) (w : World) (values : Report) :
    callsOf (postReport env w values).trace = callsOf w.trace := by
  unfold postReport
  cases env.postErr <;> simp

@[simp] theorem fs_postReport (env : ReportEnv) (w : World) (values : Report) :
    (postReport env w values).fs = w.fs := by
  unfold postReport
  cases env.postErr <;> simp

/-- With integer arithmetic that does not overflow, the reported duration is the
elapsed time in whole milliseconds. -/
theorem milliseconds_since (now start : Int) (h0 : start ≤ now)
    (h1 : now - start ≤ maxDuration) :
    milliseconds (since now start) = (now - start) / 1000000 := by
  have hneg : minDuration < 0 := by decide
  have hmin : ¬ (now - start < minDuration) := by omega
  have hmax : ¬ (maxDuration < now - start) := by omega
  simp only [milliseconds, since, hmin, hmax, if_false]
  exact Int.tdiv_eq_ediv (by omega) (by decide)

/-! ## The fetcher -/

/-- What one call of `downloadChapterImage` does when `os.Stat` of the
destination returns an error: one GET to the computed URL, one report, no
panic. -/
theorem downloadChapterImage_miss (env : FetchEnv) (w : World) (chapterPath : String)
    (chapter : ChapterResponse) (image baseUrl : String)
    (h : ∀ size isDir, w.fs (chapterPath ++ image) ≠ Stat.info size isDir) :
    ∃ r : Report,
      (downloadChapterImage env w chapterPath chapter image baseUrl).2 = Outcome.returned ∧
      getsOf (downloadChapterImage env w chapterPath chapter image baseUrl).1.trace
        = getsOf w.trace
            ++ [baseUrl ++ "/data/" ++ chapter.Data.Attributes.Hash ++ "/" ++ image] ∧
      callsOf (downloadChapterImage env w chapterPath chapter image baseUrl).1.trace
        = callsOf w.trace ∧
      reportsOf (downloadChapterImage env w chapterPath chapter image baseUrl).1.trace
        = reportsOf w.trace ++ [r] ∧
      r.url = baseUrl ++ "/data/" ++ chapter.Data.Attributes.Hash ++ "/" ++ image ∧
      r.duration = milliseconds (since env.report.now env.start) ∧
      (∀ e, env.get = Except.error e → r.success = false ∧ r.bytes = 0 ∧ r.cached = false) ∧
      (∀ resp, env.get = Except.ok resp →
        r.cached = (resp.header "X-Cache" == "HIT") ∧
        (r.success = true ↔ env.createErr = none ∧ env.copyErr = none) ∧
        r.bytes = if r.success then resp.bodyLen else 0) := by
  unfold downloadChapterImage
  rcases hfs : w.fs (chapterPath ++ image) with ⟨size, isDir⟩ | _ | msg
  · exact absurd hfs (h size isDir)
  all_goals
    rcases hget : env.get with e | resp
    · simp [reportToMangadexNetwork, hfs, hget]
    · rcases hcreate : env.createErr with _ | e
      · rcases hcopy : env.copyErr with _ | ⟨written, e⟩
        · simp [reportToMangadexNetwork, hfs, hget, hcreate, hcopy]
        · simp [reportToMangadexNetwork, hfs, hget, hcreate, hcopy]
      · simp [reportToMangadexNetwork, hfs, hget, hcreate]

/-- A call of `downloadChapterImage` never adds a `call` mark to the trace. -/
theorem callsOf_downloadChapterImage (env : FetchEnv) (w : World) (chapterPath : String)
    (chapter : ChapterResponse) (image baseUrl : String) :
    callsOf (downloadChapterImage env w chapterPath chapter image baseUrl).1.trace
      = callsOf w.trace := by
  by_cases h : ∀ size isDir, w.fs (chapterPath ++ image) ≠ Stat.info size isDir
  · obtain ⟨r, -, -, hc, -⟩ := downloadChapterImage_miss env w chapterPath chapter image baseUrl h
    exact hc
  · push_neg at h
    obtain ⟨size, isDir, hfs⟩ := h
    simp [downloadChapterImage, hfs]

/-! ## The pieces of the fetcher -/

theorem reportUntilPost_false (now : Int) (w : World) (url filename : String) (start : Int)
    (cached : Bool) :
    reportUntilPost now w url filename start false cached
      = (w.emit (Event.post DefaultClient urlMdAtHome "application/json"
            { url := url, success := false, bytes := 0,
              duration := milliseconds (since now start), cached := cached }),
          CallState.blocked Blocked.inPost) := by
  simp [reportUntilPost]

theorem reportUntilPost_true_info (now : Int) (w : World) (url filename : String)
    (start : Int) (cached : Bool) (size : Nat) (isDir : Bool)
    (h : w.fs filename = Stat.info size isDir) :
    reportUntilPost now w url filename start true cached
      = (w.emit (Event.post DefaultClient urlMdAtHome "application/json"
            { url := url, success := true, bytes := size,
              duration := milliseconds (since now start), cached := cached }),
          CallState.blocked Blocked.inPost) := by
  simp [reportUntilPost, h]

/-- The reporter is its two pieces run one after the other. -/
theorem reportToMangadexNetwork_eq_pieces (env : ReportEnv) (w : World)
    (url filename : String) (start : Int) (success cached : Bool) :
    (match reportUntilPost env.now w url filename start success cached with
      | (w1, CallState.blocked _) => (reportAfterPost env.postErr w1, Outcome.returned)
      | (w1, CallState.ended out) => (w1, out))
      = reportToMangadexNetwork env w url filename start success cached := by
  unfold reportUntilPost reportToMangadexNetwork postReport reportAfterPost
  cases success
  · cases env.postErr <;> rfl
  · rcases hfs : w.fs filename with ⟨size, isDir⟩ | _ | msg <;>
      cases env.postErr <;> simp

/-- Run one after the other under one environment, with nothing happening in
between, the pieces of the fetcher are `downloadChapterImage`. -/
theorem downloadChapterImage_eq_pieces (env : FetchEnv) (w : World) (chapterPath : String)
    (chapter : ChapterResponse) (image baseUrl : String) :
    finishCall env chapterPath chapter image baseUrl 3
        (downloadUntilGet env w chapterPath chapter image baseUrl)
      = ((downloadChapterImage env w chapterPath chapter image baseUrl).1,
          CallState.ended (downloadChapterImage env w chapterPath chapter image baseUrl).2) := by
  unfold downloadUntilGet downloadChapterImage
  rcases hfs : w.fs (chapterPath ++ image) with ⟨size, isDir⟩ | _ | msg
  · simp [hfs, finishCall]
  all_goals
    rcases hget : env.get with e | resp
    · cases hpost : env.report.postErr <;>
        simp [hfs, hget, hpost, finishCall, resumeCall, downloadAfterGet,
          reportUntilPost_false, reportAfterPost, reportToMangadexNetwork, postReport]
    · rcases hcreate : env.createErr with _ | e
      · rcases hcopy : env.copyErr with _ | ⟨written, e⟩
        · cases hpost : env.report.postErr <;>
            simp [hfs, hget, hcreate, hcopy, hpost, finishCall, resumeCall, downloadAfterGet,
              downloadAfterCopy, reportUntilPost, reportAfterPost, reportToMangadexNetwork,
              postReport]
        · cases hpost : env.report.postErr <;>
            simp [hfs, hget, hcreate, hcopy, hpost, finishCall, resumeCall, downloadAfterGet,
              downloadAfterCopy, reportUntilPost_false, reportAfterPost,
              reportToMangadexNetwork, postReport]
      · cases hpost : env.report.postErr <;>
          simp [hfs, hget, hcreate, hpost, finishCall, resumeCall, downloadAfterGet,
            reportUntilPost_false, reportAfterPost, reportToMangadexNetwork, postReport]

/-- The first piece either ends the call at the existence check or issues the
GET; it never panics and adds no call mark. -/
theorem downloadUntilGet_cases (env : FetchEnv) (w : World) (chapterPath : String)
    (chapter : ChapterResponse) (image baseUrl : String) :
    ((∃ size isDir, w.fs (chapterPath ++ image) = Stat.info size isDir) ∧
      downloadUntilGet env w chapterPath chapter image baseUrl
        = (w, CallState.ended Outcome.returned)) ∨
    ((∀ size isDir, w.fs (chapterPath ++ image) ≠ Stat.info size isDir) ∧
      downloadUntilGet env w chapterPath chapter image baseUrl
        = (w.emit (Event.get DefaultClient
              (baseUrl ++ "/data/" ++ chapter.Data.Attributes.Hash ++ "/" ++ image)),
            CallState.blocked (Blocked.inGet env.start))) := by
  unfold downloadUntilGet
  rcases hfs : w.fs (chapterPath ++ image) with ⟨size, isDir⟩ | _ | msg
  · exact Or.inl ⟨⟨size, isDir, rfl⟩, by simp [hfs]⟩
  · exact Or.inr ⟨by simp, by simp [hfs]⟩
  · exact Or.inr ⟨by simp, by simp [hfs]⟩

/-- A piece run at the return of a blocking operation never panics, adds no call
mark, and leaves the call strictly closer to its end. -/
theorem resumeCall_cases (env : FetchEnv) (w : World) (chapterPath : String)
    (chapter : ChapterResponse) (image baseUrl : String) (b : Blocked) :
    callsOf (resumeCall env w chapterPath chapter image baseUrl b).1.trace = callsOf w.trace ∧
    ((resumeCall env w chapterPath chapter image baseUrl b).2 = CallState.ended Outcome.returned ∨
      ∃ b', (resumeCall env w chapterPath chapter image baseUrl b).2 = CallState.blocked b' ∧
        blockedCost b' < blockedCost b) := by
  cases b with
  | inGet start =>
    simp only [resumeCall, downloadAfterGet]
    rcases hget : env.get with e | resp
    · simp [reportUntilPost_false, blockedCost]
    · rcases hcreate : env.createErr with _ | e
      · simp [blockedCost]
      · simp [reportUntilPost_false, blockedCost]
  | inCopy start cacheHit bodyLen =>
    simp only [resumeCall, downloadAfterCopy]
    rcases hcopy : env.copyErr with _ | ⟨written, e⟩
    · simp [reportUntilPost_true_info _ _ _ _ _ _ bodyLen false, blockedCost]
    · simp [reportUntilPost_false, blockedCost]
  | inPost =>
    simp only [resumeCall, reportAfterPost]
    cases env.report.postErr <;> simp

/-! ## The worker pool -/

theorem list_set_split {α : Type} (l : List α) (i : Nat) (a b : α) (h : l[i]? = some a) :
    ∃ l1 l2, l = l1 ++ a :: l2 ∧ l.set i b = l1 ++ b :: l2 := by
  induction l generalizing i with
  | nil => simp at h
  | cons x xs ih =>
    cases i with
    | zero =>
      simp at h
      exact ⟨[], xs, by simp [h], by simp⟩
    | succ j =>
      simp at h
      obtain ⟨l1, l2, h1, h2⟩ := ih j h
      exact ⟨x :: l1, l2, by rw [h1]; simp, by rw [List.set_cons_succ, h2]; simp⟩

@[simp] theorem heldOf_nil : heldOf [] = [] := rfl

@[simp] theorem heldOf_cons (x : Worker) (ws : List Worker) :
    heldOf (x :: ws) = (match x with
      | Worker.holding data => [data]
      | _ => []) ++ heldOf ws := by
  cases x <;> rfl

@[simp] theorem heldOf_append (ws vs : List Worker) :
    heldOf (ws ++ vs) = heldOf ws ++ heldOf vs := by
  simp [heldOf]

theorem poolInv_init (pages : List String) (w : World) : PoolInv pages w (initPool w) := by
  refine ⟨⟨[], ?_, ?_⟩, ?_, ?_, ?_, ?_, ?_, ?_, ?_, ?_⟩ <;> simp [initPool, pendingOf, workerPoolSize]

theorem poolInv_mainStep (chapter : ChapterResponse) (w0 : World) (p p' : Pool)
    (hinv : PoolInv chapter.Data.Attributes.Data w0 p)
    (hstep : mainStep chapter p = some p') :
    PoolInv chapter.Data.Attributes.Data w0 p' := by
  obtain ⟨⟨done, hdone, hperm⟩, hclosed, hexit, hwg, hspawn, hret, hnc, hnp, hcap⟩ := hinv
  rcases p with ⟨pc, wg, dataCh, closed, workers, world, crashed⟩
  simp only at hwg hret hnc hnp hcap hdone hperm hclosed hexit
  unfold mainStep at hstep
  cases pc with
  | spawning w =>
    simp only at hstep hspawn hclosed hexit
    have hcl : closed = false := by
      cases closed
      · rfl
      · simp at hclosed
    split at hstep
    · injection hstep with hstep
      subst hstep
      refine ⟨⟨done, hdone, ?_⟩, ?_, ?_, ?_, ?_, ?_, hnc, ?_, ?_⟩
      · simpa [pendingOf] using hperm
      · simp [hcl]
      · intro hmem
        simp at hmem
        exact hexit hmem
      · simpa [List.filter_append] using hwg
      · simp [hspawn.1]
        omega
      · simp
      · intro hmem
        simp at hmem
        exact hnp hmem
      · exact hcap
    · injection hstep with hstep
      subst hstep
      refine ⟨⟨done, hdone, ?_⟩, ?_, ?_, ?_, ?_, ?_, hnc, ?_, ?_⟩
      · simpa [pendingOf] using hperm
      · simp [hcl]
      · exact hexit
      · exact hwg
      · simp
        omega
      · simp
      · exact hnp
      · exact hcap
  | feeding rest =>
    simp only at hstep hspawn hclosed hexit
    have hcl : closed = false := by
      cases closed
      · rfl
      · simp at hclosed
    cases rest with
    | nil =>
      simp only at hstep
      injection hstep with hstep
      subst hstep
      refine ⟨⟨done, hdone, ?_⟩, ?_, ?_, ?_, ?_, ?_, hnc, ?_, ?_⟩
      · simpa [pendingOf] using hperm
      · simp
      · intro hmem
        have := (hexit hmem).1
        simp [hcl] at this
      · exact hwg
      · exact hspawn
      · simp
      · exact hnp
      · exact hcap
    | cons image rest =>
      simp only at hstep
      split at hstep
      · injection hstep with hstep
        subst hstep
        refine ⟨⟨done, hdone, ?_⟩, ?_, ?_, ?_, ?_, ?_, hnc, ?_, ?_⟩
        · simpa [pendingOf] using hperm
        · simp [hcl]
        · intro hmem
          have := (hexit hmem).1
          simp [hcl] at this
        · exact hwg
        · exact hspawn
        · simp
        · exact hnp
        · simp
          omega
      · exact absurd hstep (by simp)
  | waitingWg =>
    simp only at hstep hspawn hclosed hexit
    split at hstep
    · injection hstep with hstep
      subst hstep
      refine ⟨⟨done, hdone, ?_⟩, ?_, ?_, ?_, ?_, ?_, hnc, ?_, ?_⟩
      · simpa [pendingOf] using hperm
      · simpa using hclosed
      · exact hexit
      · exact hwg
      · exact hspawn
      · intro _
        assumption
      · exact hnp
      · exact hcap
    · exact absurd hstep (by simp)
  | returned => exact absurd hstep (by simp)

theorem perm_of_count_eq (l1 l2 pages : List String)
    (h : ∀ a, List.count a l1 = List.count a l2) (hp : l2.Perm pages) : l1.Perm pages :=
  (List.perm_iff_count.mpr h).trans hp

/-- In the sequential model a call of `downloadChapterImage` always returns: the
file whose size the reporter reads has just been written by the same call. -/
theorem downloadChapterImage_returns (env : FetchEnv) (w : World) (chapterPath : String)
    (chapter : ChapterResponse) (image baseUrl : String) :
    (downloadChapterImage env w chapterPath chapter image baseUrl).2 = Outcome.returned := by
  by_cases h : ∀ size isDir, w.fs (chapterPath ++ image) ≠ Stat.info size isDir
  · obtain ⟨r, hret, -⟩ := downloadChapterImage_miss env w chapterPath chapter image baseUrl h
    exact hret
  · push_neg at h
    obtain ⟨size, isDir, hfs⟩ := h
    simp [downloadChapterImage, hfs]

theorem count_heldOf_set (ws : List Worker) (i : Nat) (x y : Worker) (a : String)
    (h : ws[i]? = some x) :
    List.count a (heldOf (ws.set i y)) + List.count a (heldOf [x])
      = List.count a (heldOf ws) + List.count a (heldOf [y]) := by
  obtain ⟨l1, l2, hl, hset⟩ := list_set_split ws i x y h
  rw [hset, hl]
  simp only [heldOf_append, heldOf_cons, heldOf_nil, List.count_append, List.append_nil]
  omega

/-- Replacing a worker that has not left its loop by a worker that has neither
left its loop nor panicked keeps the invariant, provided the books on the pages
still balance. -/
theorem poolInv_set_worker (pages : List String) (w0 : World) (p : Pool) (i : Nat)
    (x y : Worker) (w : World) (hinv : PoolInv pages w0 p) (hw : p.workers[i]? = some x)
    (hx : x ≠ Worker.exited) (hy : y ≠ Worker.exited) (hyp : y ≠ Worker.panicked)
    (hcalls : ∃ done, callsOf w.trace = callsOf w0.trace ++ done ∧
      (done ++ heldOf (p.workers.set i y) ++ p.dataCh ++ pendingOf pages p.pc).Perm pages) :
    PoolInv pages w0 { p with world := w, workers := p.workers.set i y } := by
  obtain ⟨-, hclosed, hexit, hwg, hspawn, hret, hnc, hnp, hcap⟩ := hinv
  obtain ⟨l1, l2, hl, hset⟩ := list_set_split p.workers i x y hw
  refine ⟨hcalls, hclosed, ?_, ?_, ?_, hret, hnc, ?_, hcap⟩
  · intro hmem
    apply hexit
    simp only [hset] at hmem
    rw [hl]
    simp only [List.mem_append, List.mem_cons] at hmem ⊢
    rcases hmem with h | h | h
    · exact Or.inl h
    · exact absurd h.symm hy
    · exact Or.inr (Or.inr h)
  · simp only [hset]
    rw [hwg, hl]
    simp [List.filter_append, List.filter_cons, hx, hy]
  · simp only [List.length_set]
    exact hspawn
  · intro hmem
    apply hnp
    simp only [hset] at hmem
    rw [hl]
    simp only [List.mem_append, List.mem_cons] at hmem ⊢
    rcases hmem with h | h | h
    · exact Or.inl h
    · exact absurd h.symm hyp
    · exact Or.inr (Or.inr h)

theorem poolInv_workerStep (chapterPath : String) (chapter : ChapterResponse)
    (baseUrl : String) (i : Nat) (env : FetchEnv) (w0 : World) (p p' : Pool)
    (hinv : PoolInv chapter.Data.Attributes.Data w0 p)
    (hstep : workerStep chapterPath chapter baseUrl i env p = some p') :
    PoolInv chapter.Data.Attributes.Data w0 p' := by
  obtain ⟨⟨done, hdone, hperm⟩, hclosed, hexit, hwg, hspawn, hret, hnc, hnp, hcap⟩ := hinv
  rcases p with ⟨pc, wg, dataCh, closed, workers, world, crashed⟩
  simp only at hwg hret hnc hnp hcap hdone hperm hclosed hexit hspawn
  unfold workerStep at hstep
  simp only at hstep
  rcases hw : workers[i]? with _ | x
  · simp [hw] at hstep
  cases x with
  | waiting =>
    simp only [hw] at hstep
    cases dataCh with
    | cons data rest =>
      simp only at hstep
      injection hstep with hstep
      subst hstep
      obtain ⟨l1, l2, hl, hset⟩ :=
        list_set_split workers i Worker.waiting (Worker.holding data) hw
      simp only [hset]
      subst hl
      refine ⟨⟨done, hdone, ?_⟩, hclosed, ?_, ?_, ?_, hret, hnc, ?_, ?_⟩
      · refine perm_of_count_eq _ _ _ ?_ hperm
        intro a
        simp only [heldOf_append, heldOf_cons, List.count_append, List.count_cons,
          List.count_nil]
        omega
      · intro hmem
        have h2 : Worker.exited ∈ l1 ++ Worker.waiting :: l2 := by
          simp at hmem ⊢
          exact hmem
        exact absurd (hexit h2).2 (by simp)
      · simpa [List.filter_append, List.filter_cons] using hwg
      · cases pc <;> simpa using hspawn
      · intro hmem
        apply hnp
        simp at hmem ⊢
        exact hmem
      · simp at hcap ⊢
        omega
    | nil =>
      simp only at hstep
      split at hstep
      · obtain ⟨l1, l2, hl, hset⟩ := list_set_split workers i Worker.waiting Worker.exited hw
        have hpos : 1 ≤ wg := by
          rw [hwg, hl]
          simp [List.filter_append, List.filter_cons]
          omega
        split at hstep
        · omega
        · injection hstep with hstep
          subst hstep
          simp only [hset]
          subst hl
          refine ⟨⟨done, hdone, ?_⟩, hclosed, ?_, ?_, ?_, ?_, hnc, ?_, hcap⟩
          · simpa using hperm
          · intro _
            exact ⟨by assumption, rfl⟩
          · simp [List.filter_append, List.filter_cons] at hwg ⊢
            omega
          · cases pc <;> simpa using hspawn
          · intro hpc
            have := hret hpc
            omega
          · intro hmem
            apply hnp
            simp at hmem ⊢
            exact hmem
      · exact absurd hstep (by simp)
  | holding data =>
    simp only [hw] at hstep
    injection hstep with hstep
    subst hstep
    have hinv : PoolInv chapter.Data.Attributes.Data w0
        ⟨pc, wg, dataCh, closed, workers, world, crashed⟩ :=
      ⟨⟨done, hdone, hperm⟩, hclosed, hexit, hwg, hspawn, hret, hnc, hnp, hcap⟩
    have hbooks : ∀ y : Worker, heldOf [y] = [] →
        (done ++ [data] ++ heldOf (workers.set i y) ++ dataCh
          ++ pendingOf chapter.Data.Attributes.Data pc).Perm chapter.Data.Attributes.Data := by
      intro y hy
      refine perm_of_count_eq _ _ _ ?_ hperm
      intro a
      have := count_heldOf_set workers i (Worker.holding data) y a hw
      simp only [hy, heldOf_cons, heldOf_nil, List.count_append, List.count_cons,
        List.count_nil, List.append_nil] at this ⊢
      omega
    rcases downloadUntilGet_cases env (world.emit (Event.call chapterPath data baseUrl))
      chapterPath chapter data baseUrl with ⟨-, hr⟩ | ⟨-, hr⟩
    · rw [hr]
      exact poolInv_set_worker _ w0 _ i (Worker.holding data) Worker.waiting _ hinv hw
        (by simp) (by simp) (by simp)
        ⟨done ++ [data], by simp [hdone], hbooks Worker.waiting rfl⟩
    · rw [hr]
      exact poolInv_set_worker _ w0 _ i (Worker.holding data)
        (Worker.calling data (Blocked.inGet env.start)) _ hinv hw
        (by simp) (by simp) (by simp)
        ⟨done ++ [data], by simp [hdone], hbooks _ rfl⟩
  | calling data b =>
    simp only [hw] at hstep
    injection hstep with hstep
    subst hstep
    have hinv : PoolInv chapter.Data.Attributes.Data w0
        ⟨pc, wg, dataCh, closed, workers, world, crashed⟩ :=
      ⟨⟨done, hdone, hperm⟩, hclosed, hexit, hwg, hspawn, hret, hnc, hnp, hcap⟩
    have hbooks : ∀ y : Worker, heldOf [y] = [] →
        (done ++ heldOf (workers.set i y) ++ dataCh
          ++ pendingOf chapter.Data.Attributes.Data pc).Perm chapter.Data.Attributes.Data := by
      intro y hy
      refine perm_of_count_eq _ _ _ ?_ hperm
      intro a
      have := count_heldOf_set workers i (Worker.calling data b) y a hw
      simp only [hy, heldOf_cons, heldOf_nil, List.count_append, List.count_cons,
        List.count_nil, List.append_nil] at this ⊢
      omega
    obtain ⟨hcalls, hr⟩ := resumeCall_cases env world chapterPath chapter data baseUrl b
    rcases hres : resumeCall env world chapterPath chapter data baseUrl b with ⟨w2, st⟩
    rw [hres] at hcalls hr
    simp only at hcalls hr
    rcases hr with hr | ⟨b', hr, -⟩
    · subst hr
      exact poolInv_set_worker _ w0 _ i (Worker.calling data b) Worker.waiting _ hinv hw
        (by simp) (by simp) (by simp)
        ⟨done, by simp [hcalls, hdone], hbooks Worker.waiting rfl⟩
    · subst hr
      exact poolInv_set_worker _ w0 _ i (Worker.calling data b) (Worker.calling data b') _
        hinv hw (by simp) (by simp) (by simp)
        ⟨done, by simp [hcalls, hdone], hbooks _ rfl⟩
  | exited => simp [hw] at hstep
  | panicked => simp [hw] at hstep

theorem poolInv_step (chapterPath : String) (chapter : ChapterResponse) (baseUrl : String)
    (a : Action) (w0 : World) (p p' : Pool)
    (hinv : PoolInv chapter.Data.Attributes.Data w0 p)
    (hstep : step chapterPath chapter baseUrl a p = some p') :
    PoolInv chapter.Data.Attributes.Data w0 p' := by
  unfold step at hstep
  split at hstep
  · exact absurd hstep (by simp)
  · cases a with
    | main => exact poolInv_mainStep chapter w0 p p' hinv hstep
    | worker i env => exact poolInv_workerStep chapterPath chapter baseUrl i env w0 p p' hinv hstep

/-- A property kept by every enabled step holds after every schedule. -/
theorem runPool_induction (chapterPath : String) (chapter : ChapterResponse)
    (baseUrl : String) (P : Pool → Prop)
    (hstep : ∀ a p p', P p → step chapterPath chapter baseUrl a p = some p' → P p')
    (sched : List Action) (p : Pool) (hp : P p) :
    P (runPool chapterPath chapter baseUrl sched p) := by
  induction sched generalizing p with
  | nil => exact hp
  | cons a sched ih =>
    unfold runPool
    apply ih
    rcases hs : step chapterPath chapter baseUrl a p with _ | p'
    · exact hp
    · exact hstep a p p' hp hs

theorem poolInv_runPool (chapterPath : String) (chapter : ChapterResponse)
    (baseUrl : String) (sched : List Action) (w : World) :
    PoolInv chapter.Data.Attributes.Data w
      (runPool chapterPath chapter baseUrl sched (initPool w)) :=
  runPool_induction chapterPath chapter baseUrl (PoolInv chapter.Data.Attributes.Data w)
    (fun a p p' hp hs => poolInv_step chapterPath chapter baseUrl a w p p' hp hs)
    sched (initPool w) (poolInv_init _ w)

theorem heldOf_eq_nil (ws : List Worker) (h : ∀ x ∈ ws, x = Worker.exited) : heldOf ws = [] := by
  induction ws with
  | nil => rfl
  | cons x xs ih =>
    have hx : x = Worker.exited := h x (by simp)
    subst hx
    simpa using ih (fun y hy => h y (by simp [hy]))

/-- When `wg.Wait()` has returned, every worker has left its loop, the channel
is empty, and the calls made are a rearrangement of the page list. -/
theorem poolInv_returned (pages : List String) (w0 : World) (p : Pool)
    (hinv : PoolInv pages w0 p) (hpc : p.pc = MainPc.returned) :
    (∀ x ∈ p.workers, x = Worker.exited) ∧ p.dataCh = [] ∧
    ∃ done, callsOf p.world.trace = callsOf w0.trace ++ done ∧ done.Perm pages := by
  obtain ⟨⟨done, hdone, hperm⟩, hclosed, hexit, hwg, hspawn, hret, hnc, hnp, hcap⟩ := hinv
  have hz := hret hpc
  rw [hwg] at hz
  have hall : ∀ x ∈ p.workers, x = Worker.exited := by
    intro x hx
    by_contra hne
    have : x ∈ p.workers.filter (fun x => x ≠ Worker.exited) := by
      simp [List.mem_filter, hx, hne]
    have hlen : (p.workers.filter (fun x => x ≠ Worker.exited)).length = 0 := by
      exact_mod_cast hz
    rw [List.length_eq_zero] at hlen
    rw [hlen] at this
    simp at this
  have hlen : p.workers.length = workerPoolSize := by
    rw [hpc] at hspawn
    exact hspawn
  have hne : p.workers ≠ [] := by
    intro h
    rw [h] at hlen
    simp [workerPoolSize] at hlen
  obtain ⟨x, hx⟩ := List.exists_mem_of_ne_nil _ hne
  have hxe := hall x hx
  subst hxe
  have hdr := (hexit hx).2
  refine ⟨hall, hdr, done, hdone, ?_⟩
  rw [heldOf_eq_nil _ hall, hdr, hpc] at hperm
  simpa [pendingOf] using hperm

theorem mem_heldOf (ws : List Worker) (i : Nat) (data : String)
    (h : ws[i]? = some (Worker.holding data)) : data ∈ heldOf ws := by
  obtain ⟨l1, l2, hl, -⟩ := list_set_split ws i (Worker.holding data) Worker.waiting h
  rw [hl]
  simp

/-- Whatever a worker holds is one of the pages. -/
theorem poolInv_held_mem (pages : List String) (w0 : World) (p : Pool)
    (hinv : PoolInv pages w0 p) (i : Nat) (data : String)
    (h : p.workers[i]? = some (Worker.holding data)) : data ∈ pages := by
  obtain ⟨done, -, hperm⟩ := hinv.calls
  apply hperm.subset
  have := mem_heldOf p.workers i data h
  simp [this]

theorem mainStep_world (chapter : ChapterResponse) (p p' : Pool)
    (hstep : mainStep chapter p = some p') : p'.world = p.world := by
  unfold mainStep at hstep
  split at hstep
  · split at hstep <;> (injection hstep with hstep; subst hstep; rfl)
  · split at hstep
    · injection hstep with hstep
      subst hstep
      rfl
    · exact absurd hstep (by simp)
  · injection hstep with hstep
    subst hstep
    rfl
  · split at hstep
    · injection hstep with hstep
      subst hstep
      rfl
    · exact absurd hstep (by simp)
  · exact absurd hstep (by simp)

theorem mainStep_workers (chapter : ChapterResponse) (p p' : Pool)
    (hstep : mainStep chapter p = some p') :
    p'.workers = p.workers ∨ p'.workers = p.workers ++ [Worker.waiting] := by
  unfold mainStep at hstep
  split at hstep
  · split at hstep
    · injection hstep with hstep
      subst hstep
      exact Or.inr rfl
    · injection hstep with hstep
      subst hstep
      exact Or.inl rfl
  · split at hstep
    · injection hstep with hstep
      subst hstep
      exact Or.inl rfl
    · exact absurd hstep (by simp)
  · injection hstep with hstep
    subst hstep
    exact Or.inl rfl
  · split at hstep
    · injection hstep with hstep
      subst hstep
      exact Or.inl rfl
    · exact absurd hstep (by simp)
  · exact absurd hstep (by simp)

theorem none_blocked_set (ws : List Worker) (i : Nat) (y : Worker)
    (h : ∀ x ∈ ws, ∀ data b, x ≠ Worker.calling data b)
    (hy : ∀ data b, y ≠ Worker.calling data b) :
    ∀ x ∈ ws.set i y, ∀ data b, x ≠ Worker.calling data b := by
  intro x hx
  rcases List.mem_or_eq_of_mem_set hx with hmem | heq
  · exact h x hmem
  · rw [heq]
    exact hy

/-- A dispatch over pages that are all on disk leaves the disk, the GETs and the
reports as they were, step by step. -/
theorem quiet_step (chapterPath : String) (chapter : ChapterResponse) (baseUrl : String)
    (w : World)
    (hall : ∀ image ∈ chapter.Data.Attributes.Data,
      ∃ size isDir, w.fs (chapterPath ++ image) = Stat.info size isDir)
    (a : Action) (p p' : Pool)
    (hp : PoolInv chapter.Data.Attributes.Data w p ∧ Quiet w p)
    (hstep : step chapterPath chapter baseUrl a p = some p') :
    PoolInv chapter.Data.Attributes.Data w p' ∧ Quiet w p' := by
  obtain ⟨hinv, hfs, hgets, hreps, hnone⟩ := hp
  refine ⟨poolInv_step chapterPath chapter baseUrl a w p p' hinv hstep, ?_⟩
  unfold step at hstep
  split at hstep
  · exact absurd hstep (by simp)
  · cases a with
    | main =>
      simp only at hstep
      refine ⟨?_, ?_, ?_, ?_⟩
      · rw [mainStep_world chapter p p' hstep]
        exact hfs
      · rw [mainStep_world chapter p p' hstep]
        exact hgets
      · rw [mainStep_world chapter p p' hstep]
        exact hreps
      · rcases mainStep_workers chapter p p' hstep with h | h
        · rw [h]
          exact hnone
        · rw [h]
          intro x hx
          rcases List.mem_append.mp hx with hx | hx
          · exact hnone x hx
          · simp only [List.mem_singleton] at hx
            subst hx
            intro data b
            simp
    | worker i env =>
      simp only at hstep
      unfold workerStep at hstep
      rcases hw : p.workers[i]? with _ | x
      · simp [hw] at hstep
      cases x with
      | waiting =>
        simp only [hw] at hstep
        split at hstep
        · injection hstep with hstep
          subst hstep
          exact ⟨hfs, hgets, hreps, none_blocked_set _ _ _ hnone (by simp)⟩
        · split at hstep
          · split at hstep <;>
              (injection hstep with hstep; subst hstep
               exact ⟨hfs, hgets, hreps, none_blocked_set _ _ _ hnone (by simp)⟩)
          · exact absurd hstep (by simp)
      | holding data =>
        simp only [hw] at hstep
        injection hstep with hstep
        subst hstep
        obtain ⟨size, isDir, hex⟩ := hall data (poolInv_held_mem _ w p hinv i data hw)
        have hdl : downloadUntilGet env (p.world.emit (Event.call chapterPath data baseUrl))
            chapterPath chapter data baseUrl
            = (p.world.emit (Event.call chapterPath data baseUrl),
                CallState.ended Outcome.returned) := by
          simp [downloadUntilGet, hfs, hex]
        rw [hdl]
        refine ⟨?_, ?_, ?_, ?_⟩
        · simpa [settle] using hfs
        · simpa [settle] using hgets
        · simpa [settle] using hreps
        · exact none_blocked_set _ _ _ hnone (by simp)
      | calling data b =>
        exact absurd rfl (hnone _ (List.mem_iff_getElem?.mpr ⟨i, hw⟩) data b)
      | exited => simp [hw] at hstep
      | panicked => simp [hw] at hstep

theorem workerStep_enabled (chapterPath : String) (chapter : ChapterResponse)
    (baseUrl : String) (i : Nat) (env : FetchEnv) (p : Pool) (x : Worker)
    (hw : p.workers[i]? = some x) (hx : x ≠ Worker.exited) (hp : x ≠ Worker.panicked)
    (hrecv : p.dataCh = [] → p.closed = true) :
    ∃ p', workerStep chapterPath chapter baseUrl i env p = some p' := by
  unfold workerStep
  cases x with
  | waiting =>
    simp only [hw]
    rcases hd : p.dataCh with _ | ⟨data, rest⟩
    · simp only [hrecv hd, if_true]
      split <;> exact ⟨_, rfl⟩
    · exact ⟨_, rfl⟩
  | holding data =>
    simp only [hw]
    exact ⟨_, rfl⟩
  | calling data b =>
    simp only [hw]
    exact ⟨_, rfl⟩
  | exited => exact absurd rfl hx
  | panicked => exact absurd rfl hp

/-- No deadlock: as long as `wg.Wait()` has not returned, some goroutine can
take a step. -/
theorem pool_progress (chapterPath : String) (chapter : ChapterResponse) (baseUrl : String)
    (w0 : World) (p : Pool) (env : FetchEnv)
    (hinv : PoolInv chapter.Data.Attributes.Data w0 p)
    (hpc : p.pc ≠ MainPc.returned) :
    ∃ a p', step chapterPath chapter baseUrl a p = some p' := by
  obtain ⟨-, hclosed, hexit, hwg, hspawn, -, hc, hnp, -⟩ := hinv
  have hstepMain : (mainStep chapter p).isSome = true →
      ∃ a p', step chapterPath chapter baseUrl a p = some p' := by
    intro h
    obtain ⟨p', hp'⟩ := Option.isSome_iff_exists.mp h
    exact ⟨Action.main, p', by simp [step, hc, hp']⟩
  have hstepWorker : ∀ (i : Nat) (x : Worker), p.workers[i]? = some x → x ≠ Worker.exited →
      (p.dataCh = [] → p.closed = true) →
      ∃ a p', step chapterPath chapter baseUrl a p = some p' := by
    intro i x hw hx hrecv
    have hp : x ≠ Worker.panicked := by
      intro h
      subst h
      exact hnp (List.mem_iff_getElem?.mpr ⟨i, hw⟩)
    obtain ⟨p', h⟩ := workerStep_enabled chapterPath chapter baseUrl i env p x hw hx hp hrecv
    exact ⟨Action.worker i env, p', by simp [step, hc, h]⟩
  rcases hpcv : p.pc with w | rest | _ | _
  · apply hstepMain
    unfold mainStep
    rw [hpcv]
    simp only
    split <;> rfl
  · have hopen : p.closed = false := by
      cases hcl : p.closed
      · rfl
      · have := hclosed.mp hcl
        simp [hpcv] at this
    cases rest with
    | nil =>
      apply hstepMain
      unfold mainStep
      rw [hpcv]
      rfl
    | cons image rest =>
      by_cases hlen : p.dataCh.length < workerPoolSize
      · apply hstepMain
        unfold mainStep
        rw [hpcv]
        simp only [hlen, if_true]
        rfl
      · rw [hpcv] at hspawn
        simp only at hspawn
        have h0 : 0 < p.workers.length := by
          rw [hspawn]
          decide
        have hw : p.workers[0]? = some (p.workers[0]) := List.getElem?_eq_getElem h0
        apply hstepWorker 0 _ hw
        · intro hx
          have hmem : Worker.exited ∈ p.workers := hx ▸ List.mem_iff_getElem?.mpr ⟨0, hw⟩
          have := (hexit hmem).1
          simp [hopen] at this
        · intro hnil
          rw [hnil] at hlen
          simp [workerPoolSize] at hlen
  · by_cases hz : p.wg = 0
    · apply hstepMain
      unfold mainStep
      rw [hpcv]
      simp only [hz, if_true]
      rfl
    · have hne : p.workers.filter (fun x => x ≠ Worker.exited) ≠ [] := by
        intro h
        rw [hwg, h] at hz
        simp at hz
      obtain ⟨x, hx⟩ := List.exists_mem_of_ne_nil _ hne
      rw [List.mem_filter] at hx
      obtain ⟨i, hi⟩ := List.mem_iff_getElem?.mp hx.1
      apply hstepWorker i x hi
      · simpa using hx.2
      · intro _
        exact hclosed.mpr (Or.inl hpcv)
  · exact absurd hpcv hpc

theorem sum_workerCost_set (ws : List Worker) (i : Nat) (x y : Worker)
    (h : ws[i]? = some x) :
    ((ws.set i y).map workerCost).sum + workerCost x
      = (ws.map workerCost).sum + workerCost y := by
  obtain ⟨l1, l2, hl, hset⟩ := list_set_split ws i x y h
  rw [hset, hl]
  simp only [List.map_append, List.map_cons, List.sum_append, List.sum_cons]
  omega

theorem blockedCost_pos (b : Blocked) : 1 ≤ blockedCost b := by
  cases b <;> simp [blockedCost]

/-- Every enabled step uses up part of a finite budget, so a dispatch cannot go
on for ever. -/
theorem step_decreases (chapterPath : String) (chapter : ChapterResponse) (baseUrl : String)
    (a : Action) (p p' : Pool)
    (hstep : step chapterPath chapter baseUrl a p = some p') :
    poolMeasure chapter.Data.Attributes.Data p' < poolMeasure chapter.Data.Attributes.Data p := by
  rcases p with ⟨pc, wg, dataCh, closed, workers, world, crashed⟩
  unfold step at hstep
  split at hstep
  · exact absurd hstep (by simp)
  cases a with
  | main =>
    simp only at hstep
    unfold mainStep at hstep
    cases pc with
    | spawning w =>
      simp only at hstep
      split at hstep
      · injection hstep with hstep
        subst hstep
        simp [poolMeasure, mainStepsLeft, pendingOf, workerCost]
        omega
      · injection hstep with hstep
        subst hstep
        simp [poolMeasure, mainStepsLeft, pendingOf]
    | feeding rest =>
      cases rest with
      | nil =>
        simp only at hstep
        injection hstep with hstep
        subst hstep
        simp [poolMeasure, mainStepsLeft, pendingOf]
      | cons image rest =>
        simp only at hstep
        split at hstep
        · injection hstep with hstep
          subst hstep
          simp [poolMeasure, mainStepsLeft, pendingOf]
          omega
        · exact absurd hstep (by simp)
    | waitingWg =>
      simp only at hstep
      split at hstep
      · injection hstep with hstep
        subst hstep
        simp [poolMeasure, mainStepsLeft, pendingOf]
      · exact absurd hstep (by simp)
    | returned => exact absurd hstep (by simp)
  | worker i env =>
    simp only at hstep
    unfold workerStep at hstep
    simp only at hstep
    rcases hw : workers[i]? with _ | x
    · simp [hw] at hstep
    cases x with
    | waiting =>
      simp only [hw] at hstep
      cases dataCh with
      | cons data rest =>
        simp only at hstep
        injection hstep with hstep
        subst hstep
        have := sum_workerCost_set workers i Worker.waiting (Worker.holding data) hw
        simp only [poolMeasure, workerCost, List.length_cons] at this ⊢
        omega
      | nil =>
        simp only at hstep
        split at hstep
        · split at hstep
          · injection hstep with hstep
            subst hstep
            have := sum_workerCost_set workers i Worker.waiting Worker.panicked hw
            simp only [poolMeasure, workerCost] at this ⊢
            omega
          · injection hstep with hstep
            subst hstep
            have := sum_workerCost_set workers i Worker.waiting Worker.exited hw
            simp only [poolMeasure, workerCost] at this ⊢
            omega
        · exact absurd hstep (by simp)
    | holding data =>
      simp only [hw] at hstep
      injection hstep with hstep
      subst hstep
      rcases downloadUntilGet_cases env (world.emit (Event.call chapterPath data baseUrl))
        chapterPath chapter data baseUrl with ⟨-, hr⟩ | ⟨-, hr⟩
      · rw [hr]
        have := sum_workerCost_set workers i (Worker.holding data) Worker.waiting hw
        simp only [poolMeasure, workerCost, settle] at this ⊢
        omega
      · rw [hr]
        have := sum_workerCost_set workers i (Worker.holding data)
          (Worker.calling data (Blocked.inGet env.start)) hw
        simp only [poolMeasure, workerCost, blockedCost, settle] at this ⊢
        omega
    | calling data b =>
      simp only [hw] at hstep
      injection hstep with hstep
      subst hstep
      obtain ⟨-, hr⟩ := resumeCall_cases env world chapterPath chapter data baseUrl b
      rcases hres : resumeCall env world chapterPath chapter data baseUrl b with ⟨w2, st⟩
      rw [hres] at hr
      simp only at hr
      have hpos := blockedCost_pos b
      rcases hr with hr | ⟨b', hr, hlt⟩
      · subst hr
        have := sum_workerCost_set workers i (Worker.calling data b) Worker.waiting hw
        simp only [poolMeasure, workerCost, settle] at this ⊢
        omega
      · subst hr
        have := sum_workerCost_set workers i (Worker.calling data b)
          (Worker.calling data b') hw
        simp only [poolMeasure, workerCost, settle] at this ⊢
        omega
    | exited => simp [hw] at hstep
    | panicked => simp [hw] at hstep

theorem runPool_append (chapterPath : String) (chapter : ChapterResponse) (baseUrl : String)
    (s t : List Action) (p : Pool) :
    runPool chapterPath chapter baseUrl (s ++ t) p
      = runPool chapterPath chapter baseUrl t (runPool chapterPath chapter baseUrl s p) := by
  induction s generalizing p with
  | nil => rfl
  | cons a s ih =>
    simp only [List.cons_append, runPool]
    exact ih _

/-- The budget at the start of a dispatch: 43 steps for the goroutines
themselves and six for each page. -/
theorem poolMeasure_initPool (pages : List String) (w : World) :
    poolMeasure pages (initPool w) = 6 * pages.length + 43 := by
  simp [poolMeasure, initPool, mainStepsLeft, pendingOf, workerPoolSize]
  omega

/-- The enabled decisions of a schedule are paid out of the budget. -/
theorem stepsTaken_le (chapterPath : String) (chapter : ChapterResponse) (baseUrl : String)
    (sched : List Action) (p : Pool) :
    stepsTaken chapterPath chapter baseUrl sched p
        + poolMeasure chapter.Data.Attributes.Data
            (runPool chapterPath chapter baseUrl sched p)
      ≤ poolMeasure chapter.Data.Attributes.Data p := by
  induction sched generalizing p with
  | nil => simp [stepsTaken, runPool]
  | cons a sched ih =>
    unfold stepsTaken runPool
    rcases hs : step chapterPath chapter baseUrl a p with _ | p'
    · simpa using ih p
    · have h1 := ih p'
      have h2 := step_decreases chapterPath chapter baseUrl a p p' hs
      simp only [Option.getD_some]
      omega

/-- From every state of a dispatch that satisfies the invariant there is a way
on to the return of `wg.Wait()`: the goroutines never lock each other out. -/
theorem exists_completion (chapterPath : String) (chapter : ChapterResponse)
    (baseUrl : String) (w0 : World) (env : FetchEnv) (n : Nat) (p : Pool)
    (hinv : PoolInv chapter.Data.Attributes.Data w0 p)
    (hn : poolMeasure chapter.Data.Attributes.Data p ≤ n) :
    ∃ more, (runPool chapterPath chapter baseUrl more p).pc = MainPc.returned := by
  induction n generalizing p with
  | zero =>
    by_cases hpc : p.pc = MainPc.returned
    · exact ⟨[], hpc⟩
    · obtain ⟨a, p', hs⟩ := pool_progress chapterPath chapter baseUrl w0 p env hinv hpc
      have := step_decreases chapterPath chapter baseUrl a p p' hs
      omega
  | succ n ih =>
    by_cases hpc : p.pc = MainPc.returned
    · exact ⟨[], hpc⟩
    · obtain ⟨a, p', hs⟩ := pool_progress chapterPath chapter baseUrl w0 p env hinv hpc
      have hlt := step_decreases chapterPath chapter baseUrl a p p' hs
      obtain ⟨more, hmore⟩ := ih p' (poolInv_step chapterPath chapter baseUrl a w0 p p' hinv hs)
        (by omega)
      refine ⟨a :: more, ?_⟩
      simp only [runPool, hs, Option.getD_some]
      exact hmore

/-! ## The orchestrator -/

theorem findMangaId_foldl (relationships : List Relationship) (start : String) :
    relationships.foldl
        (fun mangaId relation => if relation.Type_ == "manga" then relation.Id else mangaId)
        start
      = match relationships.reverse.find? (fun relation => relation.Type_ == "manga") with
        | some relation => relation.Id
        | none => start := by
  induction relationships generalizing start with
  | nil => rfl
  | cons r rs ih =>
    rw [List.foldl_cons, ih, List.reverse_cons, List.find?_append]
    cases hrs : rs.reverse.find? (fun relation => relation.Type_ == "manga") with
    | some x => simp
    | none =>
      by_cases hr : (r.Type_ == "manga") = true
      · simp [hr]
      · simp [hr]

/-! ## Further facts used by the claims on failures -/

@[simp] theorem getClientsOf_nil : getClientsOf [] = [] := rfl

@[simp] theorem getClientsOf_cons (e : Event) (t : List Event) :
    getClientsOf (e :: t) = (match e with
      | Event.get client _ => [client]
      | _ => []) ++ getClientsOf t := by
  cases e <;> rfl

@[simp] theorem getClientsOf_append (t u : List Event) :
    getClientsOf (t ++ u) = getClientsOf t ++ getClientsOf u := by
  simp [getClientsOf]

@[simp] theorem getClientsOf_postReport (env : ReportEnv) (w : World) (values : Report) :
    getClientsOf (postReport env w values).trace = getClientsOf w.trace := by
  unfold postReport
  cases env.postErr <;> simp

/-- The reporter panics exactly when success is claimed and `os.Stat` fails with
an error other than "does not exist". -/
theorem reportToMangadexNetwork_panicked_iff (env : ReportEnv) (w : World)
    (url filename : String) (start : Int) (success cached : Bool) :
    (reportToMangadexNetwork env w url filename start success cached).2 = Outcome.panicked
      ↔ success = true ∧ ∃ msg, w.fs filename = Stat.failed msg := by
  unfold reportToMangadexNetwork
  cases success
  · simp
  · rcases hfs : w.fs filename with ⟨size, isDir⟩ | _ | msg <;> simp

/-! ## Claims -/

/-- C1 (the code departs from the claim). At a response whose `X-Cache` value is
"HIT from node", a value that begins with "HIT", the one report sent by
`downloadChapterImage` carries `cached = false`: the code compares the header
with "HIT" for equality instead of testing the beginning of the value. -/
theorem cached_flag_false_on_hit_with_suffix :
    specCacheHit "HIT from node" = true ∧
    reportsOf (downloadChapterImage (sampleFetchEnv 200 "HIT from node") emptyDisk
        "data/images/c1/" sampleChapter "1.png" "https://node/token").1.trace
      = [{ url := "https://node/token/data/h1/1.png", success := true, bytes := 25,
           duration := 235, cached := false }] := by
  constructor <;> decide

/-- C2 (the code departs from the claim). When the destination file is absent
and the delivery node answers with status 500 and a body of 25 bytes, the body
is written to the destination and the one report sent carries `success = true`
and `bytes = 25`: the status code of the response is never read. -/
theorem status_500_reported_as_success :
    (sampleFetchEnv 500 "MISS").get.map (fun resp => resp.statusCode) = Except.ok 500 ∧
    emptyDisk.fs ("data/images/c1/" ++ "1.png") = Stat.notExist ∧
    reportsOf (downloadChapterImage (sampleFetchEnv 500 "MISS") emptyDisk
        "data/images/c1/" sampleChapter "1.png" "https://node/token").1.trace
      = [{ url := "https://node/token/data/h1/1.png", success := true, bytes := 25,
           duration := 235, cached := false }] ∧
    (downloadChapterImage (sampleFetchEnv 500 "MISS") emptyDisk
        "data/images/c1/" sampleChapter "1.png" "https://node/token").1.fs
        "data/images/c1/1.png" = Stat.info 25 false := by
  refine ⟨rfl, ?_, ?_, ?_⟩ <;> decide

/-- C3. If `os.Stat` finds something at `chapterPath + image`, a call of
`downloadChapterImage` returns with the world exactly as it was: no GET, no
report, no change on disk. Consequently a dispatch of a chapter whose pages are
all on disk, under any interleaving of the workers, leaves the disk unchanged
and adds no GET and no report. -/
theorem existing_file_skips_fetch (env : FetchEnv) (w : World) (chapterPath : String)
    (chapter : ChapterResponse) (image baseUrl : String) (size : Nat) (isDir : Bool)
    (h : w.fs (chapterPath ++ image) = Stat.info size isDir) :
    downloadChapterImage env w chapterPath chapter image baseUrl = (w, Outcome.returned) ∧
    ∀ sched : List Action,
      (∀ page ∈ chapter.Data.Attributes.Data,
        ∃ pageSize pageIsDir, w.fs (chapterPath ++ page) = Stat.info pageSize pageIsDir) →
      (runPool chapterPath chapter baseUrl sched (initPool w)).world.fs = w.fs ∧
      getsOf (runPool chapterPath chapter baseUrl sched (initPool w)).world.trace
        = getsOf w.trace ∧
      reportsOf (runPool chapterPath chapter baseUrl sched (initPool w)).world.trace
        = reportsOf w.trace := by
  constructor
  · simp [downloadChapterImage, h]
  · intro sched hall
    have := runPool_induction chapterPath chapter baseUrl
      (fun p => PoolInv chapter.Data.Attributes.Data w p ∧ Quiet w p)
      (fun a p p' hp hs => quiet_step chapterPath chapter baseUrl w hall a p p' hp hs)
      sched (initPool w)
      ⟨poolInv_init _ w, rfl, rfl, rfl, by simp [initPool]⟩
    exact ⟨this.2.fs_same, this.2.gets_same, this.2.reports_same⟩

set_option maxRecDepth 100000 in
/-- C3, on a concrete input: both pages of the sample chapter are on disk; a
single call returns at once, and a complete dispatch (it reaches the point after
`wg.Wait()`) fetches nothing and reports nothing. -/
theorem existing_file_skips_fetch_witness :
    downloadChapterImage (sampleFetchEnv 200 "HIT") fullDisk "data/images/c1/" sampleChapter
        "1.png" "https://node/token" = (fullDisk, Outcome.returned) ∧
    (runPool "data/images/c1/" sampleChapter "https://node/token"
        (sampleSched (sampleFetchEnv 200 "HIT")) (initPool fullDisk)).pc = MainPc.returned ∧
    (runPool "data/images/c1/" sampleChapter "https://node/token"
        (sampleSched (sampleFetchEnv 200 "HIT")) (initPool fullDisk)).world.fs = fullDisk.fs ∧
    getsOf (runPool "data/images/c1/" sampleChapter "https://node/token"
        (sampleSched (sampleFetchEnv 200 "HIT")) (initPool fullDisk)).world.trace
      = getsOf fullDisk.trace ∧
    reportsOf (runPool "data/images/c1/" sampleChapter "https://node/token"
        (sampleSched (sampleFetchEnv 200 "HIT")) (initPool fullDisk)).world.trace
      = reportsOf fullDisk.trace := by
  have h := existing_file_skips_fetch (sampleFetchEnv 200 "HIT") fullDisk "data/images/c1/"
    sampleChapter "1.png" "https://node/token" 727040 false (by decide)
  refine ⟨h.1, by decide, h.2 (sampleSched (sampleFetchEnv 200 "HIT")) ?_⟩
  intro page hpage
  simp only [sampleChapter, List.mem_cons, List.mem_singleton, List.not_mem_nil,
    or_false] at hpage
  rcases hpage with rfl | rfl
  · exact ⟨727040, false, by decide⟩
  · exact ⟨25, false, by decide⟩

/-- C4. A call of `reportToMangadexNetwork` with `success = true` whose
destination file does not exist sends exactly one record, with `success = false`
and `bytes = 0`, and with `url` and `cached` as passed in. -/
theorem report_downgraded_when_file_missing (env : ReportEnv) (w : World)
    (url filename : String) (start : Int) (cached : Bool)
    (h : w.fs filename = Stat.notExist) :
    (reportToMangadexNetwork env w url filename start true cached).2 = Outcome.returned ∧
    reportsOf (reportToMangadexNetwork env w url filename start true cached).1.trace
      = reportsOf w.trace ++
        [{ url := url, success := false, bytes := 0,
           duration := milliseconds (since env.now start), cached := cached }] := by
  simp [reportToMangadexNetwork, h]

/-- C4, on a concrete input: success is claimed for a file that is not on the
empty disk. -/
theorem report_downgraded_when_file_missing_witness :
    emptyDisk.fs "data/images/c1/1.png" = Stat.notExist ∧
    reportsOf (reportToMangadexNetwork sampleReportEnv emptyDisk "https://node/token/data/h1/1.png"
        "data/images/c1/1.png" 0 true true).1.trace
      = [{ url := "https://node/token/data/h1/1.png", success := false, bytes := 0,
           duration := 235, cached := true }] :=
  ⟨rfl, (report_downgraded_when_file_missing sampleReportEnv emptyDisk
    "https://node/token/data/h1/1.png" "data/images/c1/1.png" 0 true rfl).2⟩

/-- C5. A call of `reportToMangadexNetwork` with `success = true` whose
destination exists with size `n` sends exactly one record: the given url,
`success = true`, `bytes = n`, the milliseconds elapsed since `start`, and the
given `cached` flag. -/
theorem report_success_carries_file_size (env : ReportEnv) (w : World)
    (url filename : String) (start : Int) (cached : Bool) (n : Nat) (isDir : Bool)
    (h : w.fs filename = Stat.info n isDir) :
    (reportToMangadexNetwork env w url filename start true cached).2 = Outcome.returned ∧
    reportsOf (reportToMangadexNetwork env w url filename start true cached).1.trace
      = reportsOf w.trace ++
        [{ url := url, success := true, bytes := n,
           duration := milliseconds (since env.now start), cached := cached }] := by
  simp [reportToMangadexNetwork, h]

/-- C5, on a concrete input: the file of 727040 bytes on the sample disk,
reported 235 ms after the start. -/
theorem report_success_carries_file_size_witness :
    fullDisk.fs "data/images/c1/1.png" = Stat.info 727040 false ∧
    reportsOf (reportToMangadexNetwork sampleReportEnv fullDisk "https://node/token/data/h1/1.png"
        "data/images/c1/1.png" 0 true true).1.trace
      = [{ url := "https://node/token/data/h1/1.png", success := true, bytes := 727040,
           duration := 235, cached := true }] :=
  ⟨by decide, (report_success_carries_file_size sampleReportEnv fullDisk
    "https://node/token/data/h1/1.png" "data/images/c1/1.png" 0 true 727040 false
    (by decide)).2⟩

/-- C6. A call of `reportToMangadexNetwork` with `success = false` sends exactly
one record, with `success = false` and `bytes = 0` and with `url` and `cached`
as passed in, whatever is on disk at the destination, and returns. -/
theorem report_failure_sent_directly (env : ReportEnv) (w : World)
    (url filename : String) (start : Int) (cached : Bool) :
    (reportToMangadexNetwork env w url filename start false cached).2 = Outcome.returned ∧
    reportsOf (reportToMangadexNetwork env w url filename start false cached).1.trace
      = reportsOf w.trace ++
        [{ url := url, success := false, bytes := 0,
           duration := milliseconds (since env.now start), cached := cached }] := by
  simp [reportToMangadexNetwork]

/-- C7. Under every interleaving of the dispatching goroutine and the workers,
calls of `downloadChapterImage` overlapping freely between their blocking
operations: the images passed to `downloadChapterImage` so far are taken from
the page list without using any position twice; once `wg.Wait()` has returned
they are a rearrangement of the whole page list and every worker has left its
loop, so no call is still open; no goroutine has panicked; as long as
`wg.Wait()` has not returned some step is possible (a goroutine moves or a
blocking operation returns) and every step uses up part of a budget of
`6 * pages + 43` steps; and every interleaving can be continued to the return of
`wg.Wait()`, with every page then attempted exactly once. -/
theorem dispatch_attempts_each_page_once (chapterPath : String) (chapter : ChapterResponse)
    (baseUrl : String) (sched : List Action) (w : World) :
    (∃ done,
      callsOf (runPool chapterPath chapter baseUrl sched (initPool w)).world.trace
        = callsOf w.trace ++ done ∧
      done.Subperm chapter.Data.Attributes.Data ∧
      ((runPool chapterPath chapter baseUrl sched (initPool w)).pc = MainPc.returned →
        done.Perm chapter.Data.Attributes.Data ∧
        ∀ x ∈ (runPool chapterPath chapter baseUrl sched (initPool w)).workers,
          x = Worker.exited)) ∧
    (runPool chapterPath chapter baseUrl sched (initPool w)).crashed = false ∧
    ((runPool chapterPath chapter baseUrl sched (initPool w)).pc ≠ MainPc.returned →
      ∃ a p',
        step chapterPath chapter baseUrl a
          (runPool chapterPath chapter baseUrl sched (initPool w)) = some p') ∧
    (∀ a p',
      step chapterPath chapter baseUrl a
          (runPool chapterPath chapter baseUrl sched (initPool w)) = some p' →
        poolMeasure chapter.Data.Attributes.Data p'
          < poolMeasure chapter.Data.Attributes.Data
              (runPool chapterPath chapter baseUrl sched (initPool w))) ∧
    stepsTaken chapterPath chapter baseUrl sched (initPool w)
      ≤ 6 * chapter.Data.Attributes.Data.length + 43 ∧
    ∃ more all,
      (runPool chapterPath chapter baseUrl (sched ++ more) (initPool w)).pc
        = MainPc.returned ∧
      callsOf (runPool chapterPath chapter baseUrl (sched ++ more) (initPool w)).world.trace
        = callsOf w.trace ++ all ∧
      all.Perm chapter.Data.Attributes.Data := by
  have hinv := poolInv_runPool chapterPath chapter baseUrl sched w
  obtain ⟨done, hdone, hperm⟩ := hinv.calls
  refine ⟨⟨done, hdone, ?_, ?_⟩, hinv.not_crashed, ?_, ?_, ?_, ?_⟩
  · have hsub : done.Sublist (done ++ heldOf
        (runPool chapterPath chapter baseUrl sched (initPool w)).workers
        ++ (runPool chapterPath chapter baseUrl sched (initPool w)).dataCh
        ++ pendingOf chapter.Data.Attributes.Data
          (runPool chapterPath chapter baseUrl sched (initPool w)).pc) := by
      simp only [List.append_assoc]
      exact List.sublist_append_left _ _
    exact hsub.subperm.trans hperm.subperm
  · intro hpc
    obtain ⟨hall, -, done', hdone', hperm'⟩ := poolInv_returned _ w _ hinv hpc
    have : done' = done := by
      rw [hdone] at hdone'
      exact (List.append_cancel_left hdone').symm
    subst this
    exact ⟨hperm', hall⟩
  · intro hpc
    exact pool_progress chapterPath chapter baseUrl w _ (sampleFetchEnv 200 "HIT") hinv hpc
  · intro a p' hstep
    exact step_decreases chapterPath chapter baseUrl a _ p' hstep
  · have h := stepsTaken_le chapterPath chapter baseUrl sched (initPool w)
    rw [poolMeasure_initPool] at h
    omega
  · obtain ⟨more, hmore⟩ := exists_completion chapterPath chapter baseUrl w
      (sampleFetchEnv 200 "HIT") _ _ hinv (le_refl _)
    have hinv2 := poolInv_runPool chapterPath chapter baseUrl (sched ++ more) w
    have hpc : (runPool chapterPath chapter baseUrl (sched ++ more) (initPool w)).pc
        = MainPc.returned := by
      rw [runPool_append]
      exact hmore
    obtain ⟨-, -, all, hall, hperm2⟩ := poolInv_returned _ w _ hinv2 hpc
    exact ⟨more, all, hpc, hall, hperm2⟩

set_option maxRecDepth 100000 in
/-- A complete dispatch of the sample chapter on an empty disk: `wg.Wait()`
returns, and the calls made are the two pages. -/
theorem dispatch_sample_run :
    (runPool "data/images/c1/" sampleChapter "https://node/token"
        (sampleSched (sampleFetchEnv 200 "HIT")) (initPool emptyDisk)).pc = MainPc.returned ∧
    callsOf (runPool "data/images/c1/" sampleChapter "https://node/token"
        (sampleSched (sampleFetchEnv 200 "HIT")) (initPool emptyDisk)).world.trace
      = ["1.png", "2.png"] := by
  constructor <;> decide

set_option maxRecDepth 100000 in
/-- Two calls for the same page can overlap: with a page list naming "1.png"
twice and an empty disk, both workers pass the existence check before either
has written the file, and the page is fetched and reported twice. -/
theorem dispatch_repeated_page_run :
    (runPool "data/images/c3/" repeatedPageChapter "https://node/token"
        (sampleSched (sampleFetchEnv 200 "HIT")) (initPool emptyDisk)).pc = MainPc.returned ∧
    callsOf (runPool "data/images/c3/" repeatedPageChapter "https://node/token"
        (sampleSched (sampleFetchEnv 200 "HIT")) (initPool emptyDisk)).world.trace
      = ["1.png", "1.png"] ∧
    getsOf (runPool "data/images/c3/" repeatedPageChapter "https://node/token"
        (sampleSched (sampleFetchEnv 200 "HIT")) (initPool emptyDisk)).world.trace
      = ["https://node/token/data/h3/1.png", "https://node/token/data/h3/1.png"] ∧
    (reportsOf (runPool "data/images/c3/" repeatedPageChapter "https://node/token"
        (sampleSched (sampleFetchEnv 200 "HIT")) (initPool emptyDisk)).world.trace).length
      = 2 := by
  refine ⟨?_, ?_, ?_, ?_⟩ <;> decide

set_option maxRecDepth 100000 in
/-- A GET that never returns keeps the dispatch from returning: under a schedule
in which no blocking operation returns, both pages have been passed to
`downloadChapterImage`, the two workers stay inside their calls, and the
dispatching goroutine stays at `wg.Wait()` however often it is scheduled. -/
theorem dispatch_stalled_run :
    (runPool "data/images/c1/" sampleChapter "https://node/token"
        (stalledSched (sampleFetchEnv 200 "HIT")) (initPool emptyDisk)).pc = MainPc.waitingWg ∧
    callsOf (runPool "data/images/c1/" sampleChapter "https://node/token"
        (stalledSched (sampleFetchEnv 200 "HIT")) (initPool emptyDisk)).world.trace
      = ["1.png", "2.png"] ∧
    (runPool "data/images/c1/" sampleChapter "https://node/token"
        (stalledSched (sampleFetchEnv 200 "HIT")) (initPool emptyDisk)).workers.take 2
      = [Worker.calling "1.png" (Blocked.inGet 0), Worker.calling "2.png" (Blocked.inGet 0)] ∧
    reportsOf (runPool "data/images/c1/" sampleChapter "https://node/token"
        (stalledSched (sampleFetchEnv 200 "HIT")) (initPool emptyDisk)).world.trace = [] := by
  refine ⟨?_, ?_, ?_, ?_⟩ <;> decide

/-- C8 as stated fails. For a list with two entries of type "manga" and ids "a"
and "b", the specification wording selects "a", the loop of `main` yields "b". -/
theorem mangaId_first_entry_refuted :
    specMangaId twoMangas = "a" ∧ findMangaId twoMangas = "b" ∧
    findMangaId twoMangas ≠ specMangaId twoMangas := by
  refine ⟨?_, ?_, ?_⟩ <;> decide

/-- C8 amended. The manga id resolved by the loop of `main` is the id of the last
entry whose type is "manga" (the first one met when the list is read backwards),
and "unknown" when no entry has type "manga". -/
theorem findMangaId_last_entry (relationships : List Relationship) :
    findMangaId relationships = specMangaId relationships.reverse := by
  unfold findMangaId specMangaId
  exact findMangaId_foldl relationships "unknown"

/-- C9. When the entry is a regular file holding an English chapter, the chapter
directory is created, and the metadata API returns without error a status other
than 200, the iteration passes no page to `downloadChapterImage`, adds no GET
and no report, and the loop goes on with the rest of the listing. -/
theorem non200_chapter_skipped (dirChapters dirImages : String) (file : DirEntry)
    (env : ChapterEnv) (itemsChapters : List (DirEntry × ChapterEnv)) (w : World)
    (mdexAtHome : AtHomeResponse) (statusCode : Int)
    (hfile : file.IsDir = false)
    (hlang : env.chapter.Data.Attributes.TranslatedLanguage = "en")
    (hmkdir : env.mkdirErr = none)
    (hapi : env.atHome = Except.ok (mdexAtHome, statusCode))
    (hstatus : statusCode ≠ 200) :
    ∃ w' : World,
      chapterLoop dirChapters dirImages ((file, env) :: itemsChapters) w
        = chapterLoop dirChapters dirImages itemsChapters w' ∧
      w'.trace = w.trace ++
        [Event.readFile (dirChapters ++ file.Name),
         Event.printf "chapter %s of manga %s\n"
           [Arg.str env.chapter.Data.Id, Arg.str (findMangaId env.chapter.Relationships)],
         Event.mkdirAll (dirImages ++ env.chapter.Data.Id ++ "/"),
         Event.atHome configHTTPClient configUserAgent env.chapter.Data.Id,
         Event.printf "HTTP ERROR CODE %d\n" [Arg.int statusCode]] ∧
      w'.fs = (w.mkdir (dirImages ++ env.chapter.Data.Id ++ "/")).fs ∧
      callsOf w'.trace = callsOf w.trace ∧
      getsOf w'.trace = getsOf w.trace ∧
      reportsOf w'.trace = reportsOf w.trace := by
  refine ⟨(((((w.emit (Event.readFile (dirChapters ++ file.Name))).emit
      (Event.printf "chapter %s of manga %s\n"
        [Arg.str env.chapter.Data.Id, Arg.str (findMangaId env.chapter.Relationships)])).emit
      (Event.mkdirAll (dirImages ++ env.chapter.Data.Id ++ "/"))).mkdir
      (dirImages ++ env.chapter.Data.Id ++ "/")).emit
      (Event.atHome configHTTPClient configUserAgent env.chapter.Data.Id)).emit
      (Event.printf "HTTP ERROR CODE %d\n" [Arg.int statusCode]), ?_, ?_, ?_, ?_, ?_, ?_⟩
  · rw [chapterLoop]
    simp [hfile, hlang, hmkdir, hapi, hstatus]
  all_goals simp

/-- C9, on a concrete input: the metadata API answers 404 for the only entry of
the listing; the loop runs to its end without any call, GET or report. -/
theorem non200_chapter_skipped_witness :
    (chapterLoop "data/chapter/" "data/images/"
        [({ Name := "c1.json", IsDir := false }, notFoundEnv)] emptyDisk).2
      = Status.completed ∧
    callsOf (chapterLoop "data/chapter/" "data/images/"
        [({ Name := "c1.json", IsDir := false }, notFoundEnv)] emptyDisk).1.trace = [] ∧
    getsOf (chapterLoop "data/chapter/" "data/images/"
        [({ Name := "c1.json", IsDir := false }, notFoundEnv)] emptyDisk).1.trace = [] ∧
    reportsOf (chapterLoop "data/chapter/" "data/images/"
        [({ Name := "c1.json", IsDir := false }, notFoundEnv)] emptyDisk).1.trace = [] := by
  obtain ⟨w', hloop, -, -, hcalls, hgets, hreps⟩ :=
    non200_chapter_skipped "data/chapter/" "data/images/" { Name := "c1.json", IsDir := false }
      notFoundEnv [] emptyDisk { BaseUrl := "" } 404 rfl rfl rfl rfl (by decide)
  rw [hloop]
  exact ⟨rfl, hcalls, hgets, hreps⟩

/-- C10. When `os.Stat` of the destination returns an error (in particular when
the file does not exist), `downloadChapterImage` issues exactly one GET, to
`baseUrl + "/data/" + hash + "/" + image`, and the one report it sends carries
that same string as its `url`. -/
theorem fetch_url_is_base_data_hash_image (env : FetchEnv) (w : World) (chapterPath : String)
    (chapter : ChapterResponse) (image baseUrl : String)
    (h : ∀ size isDir, w.fs (chapterPath ++ image) ≠ Stat.info size isDir) :
    getsOf (downloadChapterImage env w chapterPath chapter image baseUrl).1.trace
      = getsOf w.trace
          ++ [baseUrl ++ "/data/" ++ chapter.Data.Attributes.Hash ++ "/" ++ image] ∧
    ∃ r, reportsOf (downloadChapterImage env w chapterPath chapter image baseUrl).1.trace
        = reportsOf w.trace ++ [r] ∧
      r.url = baseUrl ++ "/data/" ++ chapter.Data.Attributes.Hash ++ "/" ++ image := by
  obtain ⟨r, -, hgets, -, hreps, hurl, -⟩ :=
    downloadChapterImage_miss env w chapterPath chapter image baseUrl h
  exact ⟨hgets, r, hreps, hurl⟩

/-- C10, on a concrete input: page "1.png" of the sample chapter, fetched from
"https://node/token" onto an empty disk. -/
theorem fetch_url_is_base_data_hash_image_witness :
    getsOf (downloadChapterImage (sampleFetchEnv 200 "HIT") emptyDisk "data/images/c1/"
        sampleChapter "1.png" "https://node/token").1.trace
      = getsOf emptyDisk.trace
          ++ ["https://node/token" ++ "/data/" ++ sampleChapter.Data.Attributes.Hash
                ++ "/" ++ "1.png"] ∧
    ∃ r, reportsOf (downloadChapterImage (sampleFetchEnv 200 "HIT") emptyDisk "data/images/c1/"
        sampleChapter "1.png" "https://node/token").1.trace
        = reportsOf emptyDisk.trace ++ [r] ∧
      r.url = "https://node/token" ++ "/data/" ++ sampleChapter.Data.Attributes.Hash
                ++ "/" ++ "1.png" :=
  fetch_url_is_base_data_hash_image (sampleFetchEnv 200 "HIT") emptyDisk "data/images/c1/"
    sampleChapter "1.png" "https://node/token" (fun _ _ h => Stat.noConfusion h)

/-- C11. When `os.Stat` of the destination returns an error (in particular when
the file does not exist) and the GET fails at request level, the call sends
exactly one report, with `success = false`, `bytes = 0` and `cached = false`,
leaves the disk as it was, and returns. -/
theorem request_failure_reported (env : FetchEnv) (w : World) (chapterPath : String)
    (chapter : ChapterResponse) (image baseUrl : String) (e : String)
    (h : ∀ size isDir, w.fs (chapterPath ++ image) ≠ Stat.info size isDir)
    (hget : env.get = Except.error e) :
    (downloadChapterImage env w chapterPath chapter image baseUrl).2 = Outcome.returned ∧
    reportsOf (downloadChapterImage env w chapterPath chapter image baseUrl).1.trace
      = reportsOf w.trace ++
        [{ url := baseUrl ++ "/data/" ++ chapter.Data.Attributes.Hash ++ "/" ++ image,
           success := false, bytes := 0,
           duration := milliseconds (since env.report.now env.start), cached := false }] ∧
    (downloadChapterImage env w chapterPath chapter image baseUrl).1.fs = w.fs := by
  unfold downloadChapterImage
  rcases hfs : w.fs (chapterPath ++ image) with ⟨size, isDir⟩ | _ | msg
  · exact absurd hfs (h size isDir)
  all_goals simp [reportToMangadexNetwork, hfs, hget]

/-- C11, on a concrete input: the connection to the node is refused while
page "1.png" is fetched onto an empty disk. -/
theorem request_failure_reported_witness :
    (downloadChapterImage getFailEnv emptyDisk "data/images/c1/" sampleChapter "1.png"
        "https://node/token").2 = Outcome.returned ∧
    reportsOf (downloadChapterImage getFailEnv emptyDisk "data/images/c1/" sampleChapter
        "1.png" "https://node/token").1.trace
      = [{ url := "https://node/token/data/h1/1.png", success := false, bytes := 0,
           duration := 235, cached := false }] ∧
    (downloadChapterImage getFailEnv emptyDisk "data/images/c1/" sampleChapter "1.png"
        "https://node/token").1.fs = emptyDisk.fs :=
  request_failure_reported getFailEnv emptyDisk "data/images/c1/" sampleChapter "1.png"
    "https://node/token" "connection refused" (fun _ _ h => Stat.noConfusion h) rfl

/-- C12 (the code departs from the claim). With `success = true` and a
destination on which `os.Stat` fails with a permission error, the call of
`reportToMangadexNetwork` does not return: the first lookup is not a
"does not exist" error, the second one leaves `fi` nil, and `fi.Size()` panics
before anything is posted. -/
theorem report_panics_on_stat_error :
    lockedDisk.fs "data/images/c1/1.png" = Stat.failed "permission denied" ∧
    (reportToMangadexNetwork sampleReportEnv lockedDisk "https://node/token/data/h1/1.png"
        "data/images/c1/1.png" 0 true false).2 = Outcome.panicked ∧
    reportsOf (reportToMangadexNetwork sampleReportEnv lockedDisk
        "https://node/token/data/h1/1.png" "data/images/c1/1.png" 0 true false).1.trace
      = [] := by
  refine ⟨rfl, ?_, ?_⟩ <;> decide

/-- C13. An entry that is not a directory and whose record is not in English
adds the reading of the record to the trace and nothing else: no directory is
created, no metadata request is made, no page is passed to
`downloadChapterImage`, and the loop goes on with the rest of the listing. -/
theorem non_english_chapter_skipped (dirChapters dirImages : String) (file : DirEntry)
    (env : ChapterEnv) (itemsChapters : List (DirEntry × ChapterEnv)) (w : World)
    (hfile : file.IsDir = false)
    (hlang : env.chapter.Data.Attributes.TranslatedLanguage ≠ "en") :
    chapterLoop dirChapters dirImages ((file, env) :: itemsChapters) w
      = chapterLoop dirChapters dirImages itemsChapters
          (w.emit (Event.readFile (dirChapters ++ file.Name))) ∧
    (w.emit (Event.readFile (dirChapters ++ file.Name))).fs = w.fs ∧
    (w.emit (Event.readFile (dirChapters ++ file.Name))).trace
      = w.trace ++ [Event.readFile (dirChapters ++ file.Name)] := by
  refine ⟨?_, rfl, rfl⟩
  rw [chapterLoop]
  simp [hfile, hlang]

/-- C13, on a concrete input: a listing whose only entry is a French chapter;
the run ends with the record read and nothing else done. -/
theorem non_english_chapter_skipped_witness :
    (chapterLoop "data/chapter/" "data/images/"
        [({ Name := "c2.json", IsDir := false }, frenchEnv)] emptyDisk).2
      = Status.completed ∧
    (chapterLoop "data/chapter/" "data/images/"
        [({ Name := "c2.json", IsDir := false }, frenchEnv)] emptyDisk).1.trace
      = [Event.readFile "data/chapter/c2.json"] := by
  have h := non_english_chapter_skipped "data/chapter/" "data/images/"
    { Name := "c2.json", IsDir := false } frenchEnv [] emptyDisk rfl (by decide)
  rw [h.1]
  exact ⟨rfl, by decide⟩

set_option maxRecDepth 100000 in
/-- C14 as stated fails. An entry that is not a directory is not skipped: for a
regular file holding the sample chapter the record is read, the metadata API is
asked, and both pages are passed to `downloadChapterImage` and fetched. -/
theorem non_directory_entry_processed :
    ({ Name := "c1.json", IsDir := false } : DirEntry).IsDir = false ∧
    (chapterLoop "data/chapter/" "data/images/"
        [({ Name := "c1.json", IsDir := false }, englishEnv)] emptyDisk).2
      = Status.completed ∧
    Event.readFile "data/chapter/c1.json" ∈
      (chapterLoop "data/chapter/" "data/images/"
        [({ Name := "c1.json", IsDir := false }, englishEnv)] emptyDisk).1.trace ∧
    callsOf (chapterLoop "data/chapter/" "data/images/"
        [({ Name := "c1.json", IsDir := false }, englishEnv)] emptyDisk).1.trace
      = ["1.png", "2.png"] ∧
    getsOf (chapterLoop "data/chapter/" "data/images/"
        [({ Name := "c1.json", IsDir := false }, englishEnv)] emptyDisk).1.trace
      = ["https://node/token/data/h1/1.png", "https://node/token/data/h1/2.png"] := by
  refine ⟨rfl, ?_, ?_, ?_, ?_⟩ <;> decide

/-- C14 amended. An entry of the listing that is a directory is skipped: no
record is loaded and nothing else is done for it; the loop goes on with the rest
of the listing in the same world. -/
theorem directory_entry_skipped (dirChapters dirImages : String) (file : DirEntry)
    (env : ChapterEnv) (itemsChapters : List (DirEntry × ChapterEnv)) (w : World)
    (hfile : file.IsDir = true) :
    chapterLoop dirChapters dirImages ((file, env) :: itemsChapters) w
      = chapterLoop dirChapters dirImages itemsChapters w := by
  rw [chapterLoop]
  simp [hfile]

/-- C14 amended, on a concrete input: a listing whose only entry is a directory;
the run ends with nothing done, although the environment would have served an
English chapter. -/
theorem directory_entry_skipped_witness :
    (chapterLoop "data/chapter/" "data/images/"
        [({ Name := "c1.json", IsDir := true }, englishEnv)] emptyDisk).2
      = Status.completed ∧
    (chapterLoop "data/chapter/" "data/images/"
        [({ Name := "c1.json", IsDir := true }, englishEnv)] emptyDisk).1.trace = [] := by
  rw [directory_entry_skipped "data/chapter/" "data/images/"
    { Name := "c1.json", IsDir := true } englishEnv [] emptyDisk rfl]
  exact ⟨rfl, rfl⟩

/-- C15 as stated fails. The GET issued by `downloadChapterImage` is made with
the default client of Go, whose timeout is zero (no timeout), not with the
client of the orchestrator, whose timeout is 60 seconds. -/
theorem image_get_not_with_configured_client :
    getClientsOf (downloadChapterImage (sampleFetchEnv 200 "HIT") emptyDisk
        "data/images/c1/" sampleChapter "1.png" "https://node/token").1.trace
      = [DefaultClient] ∧
    DefaultClient.timeoutSeconds = 0 ∧
    configHTTPClient.timeoutSeconds = 60 ∧
    DefaultClient ≠ configHTTPClient := by
  refine ⟨?_, rfl, rfl, ?_⟩ <;> decide

/-- C15 amended. Every call of `downloadChapterImage` makes its GET, if it makes
one, with the default client of Go, which has no request timeout: the client
with the timeout of 60 seconds is not used for image fetches. -/
theorem image_get_uses_default_client (env : FetchEnv) (w : World) (chapterPath : String)
    (chapter : ChapterResponse) (image baseUrl : String) :
    getClientsOf (downloadChapterImage env w chapterPath chapter image baseUrl).1.trace
      = getClientsOf w.trace ++
          (match w.fs (chapterPath ++ image) with
           | Stat.info _ _ => []
           | _ => [DefaultClient]) ∧
    DefaultClient.timeoutSeconds = 0 := by
  refine ⟨?_, rfl⟩
  unfold downloadChapterImage
  rcases hfs : w.fs (chapterPath ++ image) with ⟨size, isDir⟩ | _ | msg
  · simp [hfs]
  all_goals
    rcases hget : env.get with e | resp
    · simp [reportToMangadexNetwork, hfs, hget]
    · rcases hcreate : env.createErr with _ | e
      · rcases hcopy : env.copyErr with _ | ⟨written, e⟩
        · simp [reportToMangadexNetwork, hfs, hget, hcreate, hcopy]
        · simp [reportToMangadexNetwork, hfs, hget, hcreate, hcopy]
      · simp [reportToMangadexNetwork, hfs, hget, hcreate]

/-- C16. When `os.Stat` of the destination returns an error at entry (in
particular when the file does not exist), whatever the outcomes of the GET, of
the creation of the file, of the copy and of the POST, the call sends exactly
one report; that report has `success = true` exactly when the GET returned a
response and neither the creation nor the copy failed. -/
theorem exactly_one_report_per_fetch (env : FetchEnv) (w : World) (chapterPath : String)
    (chapter : ChapterResponse) (image baseUrl : String)
    (h : ∀ size isDir, w.fs (chapterPath ++ image) ≠ Stat.info size isDir) :
    ∃ r : Report,
      reportsOf (downloadChapterImage env w chapterPath chapter image baseUrl).1.trace
        = reportsOf w.trace ++ [r] ∧
      (r.success = true ↔
        (∃ resp, env.get = Except.ok resp) ∧ env.createErr = none ∧ env.copyErr = none) := by
  obtain ⟨r, -, -, -, hreps, -, -, herr, hok⟩ :=
    downloadChapterImage_miss env w chapterPath chapter image baseUrl h
  refine ⟨r, hreps, ?_⟩
  rcases hget : env.get with e | resp
  · have := (herr e hget).1
    simp [this]
  · have := (hok resp hget).2.1
    simp [this]

/-- C16, on concrete inputs: one report with `success = true` when everything
succeeds, one report with `success = false` when the copy breaks off. -/
theorem exactly_one_report_per_fetch_witness :
    (∃ r : Report,
      reportsOf (downloadChapterImage (sampleFetchEnv 200 "HIT") emptyDisk "data/images/c1/"
          sampleChapter "1.png" "https://node/token").1.trace = reportsOf emptyDisk.trace ++ [r] ∧
      (r.success = true ↔
        (∃ resp, (sampleFetchEnv 200 "HIT").get = Except.ok resp) ∧
          (sampleFetchEnv 200 "HIT").createErr = none ∧
          (sampleFetchEnv 200 "HIT").copyErr = none)) ∧
    reportsOf (downloadChapterImage copyFailEnv emptyDisk "data/images/c1/"
        sampleChapter "1.png" "https://node/token").1.trace
      = [{ url := "https://node/token/data/h1/1.png", success := false, bytes := 0,
           duration := 235, cached := false }] :=
  ⟨exactly_one_report_per_fetch (sampleFetchEnv 200 "HIT") emptyDisk "data/images/c1/"
    sampleChapter "1.png" "https://node/token" (fun _ _ h => Stat.noConfusion h), by decide⟩

/-- C17. When the file is created and the copy of the body then fails, the call
reports `success = false` and leaves on disk a file holding the bytes written so
far; every later call for the same chapter path and image, in any world in which
`os.Stat` still answers as it did right after the failed call, returns at once
with that world unchanged: no GET, no report. -/
theorem failed_copy_never_fetched_again (env : FetchEnv) (w : World) (chapterPath : String)
    (chapter : ChapterResponse) (image baseUrl : String) (resp : Response)
    (written : Nat) (e : String)
    (h : ∀ size isDir, w.fs (chapterPath ++ image) ≠ Stat.info size isDir)
    (hget : env.get = Except.ok resp) (hcreate : env.createErr = none)
    (hcopy : env.copyErr = some (written, e)) :
    (downloadChapterImage env w chapterPath chapter image baseUrl).1.fs (chapterPath ++ image)
      = Stat.info written false ∧
    (∃ r : Report,
      reportsOf (downloadChapterImage env w chapterPath chapter image baseUrl).1.trace
        = reportsOf w.trace ++ [r] ∧ r.success = false) ∧
    ∀ (later : FetchEnv) (v : World) (laterChapter : ChapterResponse) (laterBaseUrl : String),
      v.fs (chapterPath ++ image)
        = (downloadChapterImage env w chapterPath chapter image baseUrl).1.fs
            (chapterPath ++ image) →
      downloadChapterImage later v chapterPath laterChapter image laterBaseUrl
        = (v, Outcome.returned) := by
  have hfs : (downloadChapterImage env w chapterPath chapter image baseUrl).1.fs
      (chapterPath ++ image) = Stat.info written false := by
    unfold downloadChapterImage
    rcases hw : w.fs (chapterPath ++ image) with ⟨size, isDir⟩ | _ | msg
    · exact absurd hw (h size isDir)
    all_goals simp [reportToMangadexNetwork, hw, hget, hcreate, hcopy]
  refine ⟨hfs, ?_, ?_⟩
  · obtain ⟨r, -, -, -, hreps, -, -, -, hok⟩ :=
      downloadChapterImage_miss env w chapterPath chapter image baseUrl h
    refine ⟨r, hreps, ?_⟩
    have hiff := (hok resp hget).2.1
    cases hs : r.success
    · rfl
    · have := (hiff.mp hs).2
      rw [hcopy] at this
      exact absurd this (by simp)
  · intro later v laterChapter laterBaseUrl hv
    rw [hfs] at hv
    simp [downloadChapterImage, hv]

/-- C17, on a concrete input: the copy of page "1.png" breaks off after 10
bytes; a file of 10 bytes stays on disk, and a second call, for which the node
would now answer properly, returns at once. -/
theorem failed_copy_never_fetched_again_witness :
    (downloadChapterImage copyFailEnv emptyDisk "data/images/c1/" sampleChapter "1.png"
        "https://node/token").1.fs ("data/images/c1/" ++ "1.png") = Stat.info 10 false ∧
    downloadChapterImage (sampleFetchEnv 200 "HIT")
        (downloadChapterImage copyFailEnv emptyDisk "data/images/c1/" sampleChapter "1.png"
          "https://node/token").1
        "data/images/c1/" sampleChapter "1.png" "https://node/token"
      = ((downloadChapterImage copyFailEnv emptyDisk "data/images/c1/" sampleChapter "1.png"
          "https://node/token").1, Outcome.returned) := by
  have h := failed_copy_never_fetched_again copyFailEnv emptyDisk "data/images/c1/"
    sampleChapter "1.png" "https://node/token"
    { statusCode := 200, header := fun _ => "", bodyLen := 25 } 10 "unexpected EOF"
    (fun _ _ h => Stat.noConfusion h) rfl rfl rfl
  exact ⟨h.1, h.2.2 (sampleFetchEnv 200 "HIT") _ sampleChapter "https://node/token" rfl⟩

end CacheChapters

